import Mathlib

/-!
Verification of the meson-c tokenizer, recursive-descent parser and AST
model (src/lexer.c, src/parser.c, src/ast.c) against its specification.

The embedding follows the C sources statement by statement:

* The tokenizer state mirrors `struct lexer` (error latch, input buffer,
  cursor, lexeme buffer, buffer capacity).  The input buffer is read through
  `peekE`: the byte at `input_pos < input_len` is the corresponding source
  character, the byte at `input_pos = input_len` is the NUL terminator that
  `string_from_buf` / `string_alloc` guarantee, and any read beyond that is
  an out-of-bounds access of the underlying allocation, modelled as the
  `RunErr.oob` outcome.  Loops are driven by an explicit fuel counter; fuel
  exhaustion is the distinct outcome `RunErr.nofuel` and is never identified
  with any behaviour of the C code.
* `realloc` failures inside `grow` are driven by the oracle `growOracle`
  (one boolean per attempted reallocation, an empty oracle means every
  allocation succeeds), which makes the sticky `error` latch reachable.
* The parser mirrors `struct parser` (single token of lookahead) and every
  production of parser.c, including each `ast_free` call on the failure
  paths.  Allocation of AST nodes (`ast_new`) and of duplicated strings
  (`string_dup`) consult the allocation oracle in `Heap.oracle` in the same
  order as the corresponding `malloc` calls; `Heap.allocd` counts the AST
  nodes successfully allocated and `Heap.freed` counts the AST nodes
  released by `ast_free`, so leak claims become arithmetic on the final
  heap.
* `strtoll` is modelled as unbounded base conversion of the valid digit
  prefix; the int64 saturation of the C library function is irrelevant to
  the claims checked here, which use small literals only.
-/

namespace MesonC

/-! ## Character classification (ctype.h, single-byte, C locale) -/

/-- The NUL terminator byte that closes every input buffer. -/
def nulChar : Char := Char.ofNat 0

/-- The single-quote character, written via its code so that source
quoting stays unambiguous. -/
def qch : Char := Char.ofNat 39

def isSpaceC (c : Char) : Bool :=
  c = ' ' || c = Char.ofNat 9 || c = Char.ofNat 10 ||
  c = Char.ofNat 11 || c = Char.ofNat 12 || c = Char.ofNat 13

def isAlphaC (c : Char) : Bool :=
  (('a' ≤ c) && (c ≤ 'z')) || (('A' ≤ c) && (c ≤ 'Z'))

def isDigitC (c : Char) : Bool := ('0' ≤ c) && (c ≤ '9')

def isXDigitC (c : Char) : Bool :=
  isDigitC c || (('a' ≤ c) && (c ≤ 'f')) || (('A' ≤ c) && (c ≤ 'F'))

def isBDigitC (c : Char) : Bool := c = '0' || c = '1'

def isODigitC (c : Char) : Bool := ('0' ≤ c) && (c ≤ '7')

/-- Mirrors `is_punct` of lexer.c (the fixed punctuation/operator set). -/
def isPunctC (c : Char) : Bool :=
  c = '(' || c = ')' ||
  c = '{' || c = '}' ||
  c = '[' || c = ']' ||
  c = '.' || c = ',' ||
  c = ':' || c = '?' ||
  c = '+' || c = '-' ||
  c = '*' || c = '/' ||
  c = '%' || c = '=' ||
  c = '<' || c = '>' ||
  c = '!'

/-- Mirrors `is_symbol` of lexer.c: a letter or underscore. -/
def isSymbolC (c : Char) : Bool := isAlphaC c || c = '_'

/-! ## Token type (lexer.h `enum token_type`) -/

inductive Token where
  | INVALID
  | AND | BREAK | CONTINUE | ELIF | ELSE | ENDFOREACH | ENDIF
  | FALSE | FOREACH | IF | IN | NOT | OR | TRUE
  | IDENTIFIER
  | BIN_NUMBER | DEC_NUMBER | OCT_NUMBER | HEX_NUMBER
  | STRING | MULTILINE_STRING
  | L_PAREN | L_BRACE | L_BRACKET | R_PAREN | R_BRACE | R_BRACKET
  | ASSIGN | DOT | COLON | COMMA | TERNARY
  | PLUS | MINUS | STAR | SLASH | PERCENT
  | ADD_ASSIGN | SUB_ASSIGN | MOD_ASSIGN | MUL_ASSIGN | DIV_ASSIGN
  | LT | LE | GT | GE | EQ | NE
  | INC | DEC
  | NEWLINE | END | ERROR
deriving DecidableEq, Repr, BEq

/-! ## Tokenizer state (lexer.h `struct lexer`) -/

structure Lexer where
  error : Bool
  input : List Char
  pos : Nat
  lexeme : List Char
  lexemeMax : Nat
  growOracle : List Bool
deriving DecidableEq, Repr

/-- Abnormal outcomes of running the embedded code: an out-of-bounds
memory access (undefined behaviour in the C source), or exhaustion of the
fuel that drives the embedding's loops. -/
inductive RunErr where
  | oob
  | nofuel
deriving DecidableEq, Repr

/-- Mirrors `struct result` of lexer.c: a scan either succeeds with a
token or fails. -/
inductive CRes where
  | succ (t : Token)
  | fail
deriving DecidableEq, Repr

/-- Mirrors `peek`: reading `input[input_pos]`.  Within the buffer this is
the source byte, at `input_pos = input_len` it is the NUL terminator, and
past that it is an out-of-bounds read. -/
def peekE (l : Lexer) : Except RunErr Char :=
  if h : l.pos < l.input.length then .ok (l.input.get ⟨l.pos, h⟩)
  else if l.pos = l.input.length then .ok nulChar
  else .error .oob

/-- Mirrors `advance`. -/
def advanceL (l : Lexer) : Lexer := { l with pos := l.pos + 1 }

/-- Mirrors `is_end`. -/
def isEnd (l : Lexer) : Bool := l.pos = l.input.length

/-- Mirrors `grow`: with the error latch set it fails immediately;
otherwise, if the lexeme buffer is full, it doubles `lexeme_max` and
reallocates, consulting `growOracle` for the outcome of `realloc` (a
failed reallocation sets the sticky latch). -/
def grow (l : Lexer) : Bool × Lexer :=
  if l.error then (false, l)
  else if l.lexemeMax ≤ l.lexeme.length then
    let ok := l.growOracle.headD true
    let l' := { l with lexemeMax := l.lexemeMax * 2, growOracle := l.growOracle.tail }
    if ok then (true, l') else (false, { l' with error := true })
  else (true, l)

/-- Mirrors `append`: store the current character when the buffer can
hold it, and advance the cursor unconditionally. -/
def appendL (l : Lexer) : Except RunErr Lexer :=
  let (g, l) := grow l
  if g then do
    let c ← peekE l
    pure (advanceL { l with lexeme := l.lexeme ++ [c] })
  else
    pure (advanceL l)

/-- Mirrors `fail`. -/
def failR : CRes := .fail

/-- Mirrors `finish`: NUL-terminate the lexeme (a buffer write that does
not change the recorded lexeme contents) and succeed, unless the final
`grow` fails. -/
def finishL (l : Lexer) (t : Token) : CRes × Lexer :=
  let (g, l) := grow l
  if g then (.succ t, l) else (failR, l)

/-- Mirrors `match`. -/
def matchC (l : Lexer) (c : Char) : Except RunErr (Bool × Lexer) := do
  let c' ← peekE l
  if c' = c then pure (true, advanceL l) else pure (false, l)

/-- Mirrors `accept`. -/
def acceptL (l : Lexer) (c : Char) : Except RunErr (Bool × Lexer) := do
  let c' ← peekE l
  if c' = c then do
    let l ← appendL l
    pure (true, l)
  else pure (false, l)

/-! ## Keyword / identifier scan (`symbol`) -/

/-- The keyword table of `symbol`, in source order: prefix flag, spelling,
token. -/
def keywords : List (Bool × List Char × Token) :=
  [ (false, "and".data, .AND),
    (false, "break".data, .BREAK),
    (false, "continue".data, .CONTINUE),
    (true,  "elif".data, .ELIF),
    (true,  "else".data, .ELSE),
    (true,  "endforeach".data, .ENDFOREACH),
    (false, "endif".data, .ENDIF),
    (true,  "false".data, .FALSE),
    (false, "foreach".data, .FOREACH),
    (true,  "if".data, .IF),
    (false, "in".data, .IN),
    (false, "not".data, .NOT),
    (false, "or".data, .OR),
    (false, "true".data, .TRUE) ]

/-- Mirrors the identifier fallback loop of `symbol`:
`while (is_symbol(l) || is_digit(l)) append(l);` then finish. -/
def symbolId : Nat → Lexer → Except RunErr (CRes × Lexer)
  | 0, _ => .error .nofuel
  | fuel + 1, l => do
    let c ← peekE l
    if isSymbolC c || isDigitC c then do
      let l ← appendL l
      symbolId fuel l
    else
      pure (finishL l .IDENTIFIER)

/-- Mirrors the keyword matching loop of `symbol`.  The table position is
the remaining entry list, `j` is the shared position inside the current
spelling.  Reading a spelling past its NUL terminator (possible because a
prefix-flagged mismatch keeps `j` for the next entry) is an out-of-bounds
read of the string literal. -/
def symbolKw : Nat → List (Bool × List Char × Token) → Nat → Lexer →
    Except RunErr (CRes × Lexer)
  | 0, _, _, _ => .error .nofuel
  | fuel + 1, [], _, l => symbolId fuel l
  | fuel + 1, (pfx, name, tok) :: rest, j, l =>
    if h : j < name.length then do
      let (b, l) ← acceptL l (name.get ⟨j, h⟩)
      if b then symbolKw fuel ((pfx, name, tok) :: rest) (j + 1) l
      else symbolKw fuel rest (if pfx then j else 0) l
    else if j = name.length then
      if isEnd l then pure (finishL l tok)
      else do
        let c ← peekE l
        if isSpaceC c || isPunctC c then pure (finishL l tok)
        else symbolId fuel l
    else .error .oob

/-- Mirrors `symbol`. -/
def symbolScan (fuel : Nat) (l : Lexer) : Except RunErr (CRes × Lexer) :=
  symbolKw fuel keywords 0 l

/-! ## String scans (`multiline_string`, `string`) -/

/-- Mirrors the inner content loop of `multiline_string`:
`while (!is_end(l) && !is_quote(l)) append(l);`. -/
def mlContent : Nat → Lexer → Except RunErr Lexer
  | 0, _ => .error .nofuel
  | fuel + 1, l =>
    if isEnd l then pure l
    else do
      let c ← peekE l
      if c = qch then pure l
      else do
        let l ← appendL l
        mlContent fuel l

/-- Mirrors the quote counting loop of `multiline_string`:
`while (i < 3 && is_quote(l)) { append(l); i++; }`. -/
def mlQuotes : Nat → Nat → Lexer → Except RunErr (Nat × Lexer)
  | 0, i, l => pure (i, l)
  | fuel + 1, i, l =>
    if i < 3 then do
      let c ← peekE l
      if c = qch then do
        let l ← appendL l
        mlQuotes fuel (i + 1) l
      else pure (i, l)
    else pure (i, l)

/-- Mirrors `multiline_string`. -/
def multilineScan : Nat → Lexer → Except RunErr (CRes × Lexer)
  | 0, _ => .error .nofuel
  | fuel + 1, l =>
    if isEnd l then pure (failR, l)
    else do
      let l ← mlContent fuel l
      let (i, l) ← mlQuotes 3 0 l
      if i = 3 then
        pure (finishL { l with lexeme := l.lexeme.take (l.lexeme.length - 3) }
                .MULTILINE_STRING)
      else do
        let l ← appendL l
        multilineScan fuel l

/-- Mirrors the single-quoted content loop of `string`. -/
def sqContent : Nat → Lexer → Except RunErr Lexer
  | 0, _ => .error .nofuel
  | fuel + 1, l =>
    if isEnd l then pure l
    else do
      let c ← peekE l
      if c = qch then pure l
      else do
        let l ← appendL l
        sqContent fuel l

/-- Mirrors `string`. -/
def stringScan (fuel : Nat) (l : Lexer) : Except RunErr (CRes × Lexer) := do
  let (_, l) ← matchC l qch
  let (b, l) ← matchC l qch
  if b then do
    let (b2, l) ← matchC l qch
    if b2 then multilineScan fuel l
    else pure (finishL l .STRING)
  else do
    let l ← sqContent fuel l
    let (b3, l) ← matchC l qch
    if b3 then pure (finishL l .STRING)
    else pure (failR, l)

/-! ## Numeric literal scan (`number`) -/

/-- Mirrors the digit loop of `number`: `while (cond(l)) append(l);`. -/
def numLoop : Nat → (Char → Bool) → Lexer → Except RunErr Lexer
  | 0, _, _ => .error .nofuel
  | fuel + 1, cond, l => do
    let c ← peekE l
    if cond c then do
      let l ← appendL l
      numLoop fuel cond l
    else pure l

/-- The shared tail of `number`: scan the digits, then succeed only when
the next character is end-of-input, whitespace or punctuation. -/
def numberTail (fuel : Nat) (cond : Char → Bool) (tok : Token) (l : Lexer) :
    Except RunErr (CRes × Lexer) := do
  let l ← numLoop fuel cond l
  if isEnd l then pure (finishL l tok)
  else do
    let c ← peekE l
    if isSpaceC c || isPunctC c then pure (finishL l tok)
    else pure (failR, l)

/-- The base-prefixed branch of `number` (a non-decimal token was
selected): skip the base marker, require one valid digit, drop the
recorded `0`, and continue with the shared tail. -/
def numberBase (fuel : Nat) (cond : Char → Bool) (tok : Token) (l : Lexer) :
    Except RunErr (CRes × Lexer) := do
  let l := advanceL l
  let c2 ← peekE l
  if cond c2 then
    numberTail fuel cond tok { l with lexeme := l.lexeme.dropLast }
  else pure (failR, l)

/-- Mirrors `number` (the `switch` on the character after `0` selects the
digit predicate and token). -/
def numberScan (fuel : Nat) (l : Lexer) : Except RunErr (CRes × Lexer) := do
  let (b0, l) ← acceptL l '0'
  if b0 then do
    let c ← peekE l
    if c = 'b' then numberBase fuel isBDigitC .BIN_NUMBER l
    else if c = 'o' then numberBase fuel isODigitC .OCT_NUMBER l
    else if c = 'x' then numberBase fuel isXDigitC .HEX_NUMBER l
    else numberTail fuel isDigitC .DEC_NUMBER l
  else numberTail fuel isDigitC .DEC_NUMBER l

/-! ## Punctuation scans and the dispatch loop (`maybe_eq`, `do_lex`) -/

/-- Mirrors `maybe_eq`. -/
def maybeEq (l : Lexer) (ifEq ifNotEq : Token) : Except RunErr (CRes × Lexer) := do
  let l ← appendL l
  let (b, l) ← acceptL l '='
  if b then pure (finishL l ifEq) else pure (finishL l ifNotEq)

/-- Mirrors `append_finish`. -/
def appendFinish (l : Lexer) (t : Token) : Except RunErr (CRes × Lexer) := do
  let l ← appendL l
  pure (finishL l t)

/-- Mirrors the whitespace loop of `do_lex`:
`while (!is_end(l) && is_space(l)) advance(l);`. -/
def skipWs : Nat → Lexer → Except RunErr Lexer
  | 0, _ => .error .nofuel
  | fuel + 1, l =>
    if isEnd l then pure l
    else do
      let c ← peekE l
      if isSpaceC c then skipWs fuel (advanceL l)
      else pure l

/-- Mirrors the comment loop of `do_lex`:
`while (!is_end(l) && peek(l) != newline) advance(l);`. -/
def skipComment : Nat → Lexer → Except RunErr Lexer
  | 0, _ => .error .nofuel
  | fuel + 1, l =>
    if isEnd l then pure l
    else do
      let c ← peekE l
      if c = Char.ofNat 10 then pure l
      else skipComment fuel (advanceL l)

/-- The single-character arms of the `do_lex` switch (all arms of the C
switch are mutually exclusive, so a lookup table is an exact mirror). -/
def punct1 (c : Char) : Option Token :=
  if c = '(' then some .L_PAREN
  else if c = ')' then some .R_PAREN
  else if c = '{' then some .L_BRACE
  else if c = '}' then some .R_BRACE
  else if c = '[' then some .L_BRACKET
  else if c = ']' then some .R_BRACKET
  else if c = '.' then some .DOT
  else if c = ',' then some .COMMA
  else if c = ':' then some .COLON
  else if c = '?' then some .TERNARY
  else none

/-- The `maybe_eq` arms of the `do_lex` switch: the compound token taken
when `=` follows, and the plain token otherwise. -/
def punct2 (c : Char) : Option (Token × Token) :=
  if c = '+' then some (.ADD_ASSIGN, .PLUS)
  else if c = '-' then some (.SUB_ASSIGN, .MINUS)
  else if c = '*' then some (.MUL_ASSIGN, .STAR)
  else if c = '/' then some (.DIV_ASSIGN, .SLASH)
  else if c = '%' then some (.MOD_ASSIGN, .PERCENT)
  else if c = '<' then some (.LE, .LT)
  else if c = '>' then some (.GE, .GT)
  else if c = '=' then some (.EQ, .ASSIGN)
  else if c = '!' then some (.NE, .INVALID)
  else none

/-- The token dispatch of `do_lex` after the skip phase. -/
def dispatch (fuel : Nat) (l : Lexer) : Except RunErr (CRes × Lexer) := do
  let c ← peekE l
  if isSymbolC c then symbolScan fuel l
  else if c = qch then stringScan fuel l
  else if isDigitC c then numberScan fuel l
  else
    match punct1 c with
    | some t => appendFinish l t
    | none =>
      match punct2 c with
      | some ts => maybeEq l ts.1 ts.2
      | none => pure (failR, l)

/-- Mirrors the skip phase of `do_lex` (the `for (;;)` loop). -/
def doLexGo : Nat → Lexer → Except RunErr (CRes × Lexer)
  | 0, _ => .error .nofuel
  | fuel + 1, l => do
    let l ← skipWs fuel l
    if isEnd l then pure (finishL l .END)
    else do
      let (bs, l) ← matchC l '\\'
      if bs then doLexGo fuel l
      else do
        let c ← peekE l
        if c = '#' then do
          let l ← skipComment fuel l
          doLexGo fuel l
        else dispatch fuel l

/-- Mirrors `do_lex`: reset the lexeme buffer and run the skip phase plus
dispatch. -/
def doLex (fuel : Nat) (l : Lexer) : Except RunErr (CRes × Lexer) :=
  doLexGo fuel { l with lexeme := [] }

/-- Mirrors `lex`: a successful scan still reports `TOKEN_ERROR` when the
sticky error latch is set, and any failed scan reports `TOKEN_ERROR`. -/
def lexF (fuel : Nat) (l : Lexer) : Except RunErr (Token × Lexer) := do
  let (r, l') ← doLex fuel l
  match r with
  | .succ t => pure ((if l'.error then Token.ERROR else t), l')
  | .fail => pure ((Token.ERROR), l')

/-- Mirrors `lexer_init` (the 128 byte initial lexeme buffer). -/
def lexerInit (input : List Char) : Lexer :=
  { error := false, input := input, pos := 0, lexeme := [],
    lexemeMax := 128, growOracle := [] }

/-- Fuel that amply bounds every loop of a single `lex` call on inputs
that stay inside the buffer. -/
def lexFuel (l : Lexer) : Nat := l.input.length + 80

/-- Run a single `lex` call on a fresh tokenizer over the given source,
returning the token and the recorded lexeme. -/
def lexOnce (src : String) : Option (Token × List Char) :=
  match lexF (lexFuel (lexerInit src.data)) (lexerInit src.data) with
  | .ok (t, l) => some (t, l.lexeme)
  | .error _ => none

/-! ## AST model (ast.h, ast.c) -/

/-- Mirrors `enum ast_type`. -/
inductive AstTy where
  | EMPTY | SEQUENCE | ASSIGNMENT | IF | IF_CLAUSE | FOREACH | JUMP
  | UNARY | LOGICAL | ARITHMETIC | RELATIONAL | MEMBER | INDEX
  | APPLICATION | KEYWORD_ARG | ID | BOOLEAN | NUMBER | STRING
  | ARRAY | DICTIONARY | KV
deriving DecidableEq, Repr, BEq

/-- Mirrors `enum ast_subtype`. -/
inductive ASub where
  | NONE
  | ASSIGN | ADD_ASSIGN | SUB_ASSIGN | MUL_ASSIGN | DIV_ASSIGN | MOD_ASSIGN
  | BREAK | CONTINUE
  | NOT | PLUS | MINUS
  | OR | AND | TERNARY
  | ADD | SUB | MUL | DIV | MOD
  | EQ | NE | LT | LE | GT | GE | IN | NOT_IN
  | TRUE | FALSE
deriving DecidableEq, Repr, BEq

/-- The AST value type.  Every C node variant appears as one constructor;
pointer fields that the parser fills in only after construction
(`app->ref`, `index->ref`, `foreach->exp`, `foreach->body`, `if->alt`)
are `Option`s, and a text field is `none` exactly when the node's inner
`string_dup` failed (`NULL_STRING`).  The `binary` constructor carries the
`(type, subtype)` pair exactly as `ast_binary` receives it. -/
inductive Ast where
  | empty
  | seqN (exps : List Ast)
  | binary (ty : AstTy) (sub : ASub) (lhs rhs : Ast)
  | ternary (pred conseq alt : Ast)
  | ifN (clauses : List Ast) (alt : Option Ast)
  | ifClause (pred conseq : Ast)
  | foreachN (ids : List Ast) (exp : Option Ast) (body : Option Ast)
  | jump (sub : ASub)
  | unary (sub : ASub) (exp : Ast)
  | member (obj fld : Ast)
  | indexN (ref : Option Ast) (idx : Ast)
  | appN (ref : Option Ast) (args : List Ast) (kwArgs : List Ast)
  | kwArg (kid : Ast) (exp : Ast)
  | idN (name : Option String)
  | boolN (sub : ASub)
  | num (value : Int)
  | strN (value : Option String)
  | arrN (count : Nat) (elts : List Ast)
  | dictN (map : List Ast)
  | kvN (key value : Ast)
deriving Repr

/-- Mirrors `ast_type` (the low byte of `info`). -/
def astTy : Ast → AstTy
  | .empty => .EMPTY
  | .seqN _ => .SEQUENCE
  | .binary ty _ _ _ => ty
  | .ternary _ _ _ => .LOGICAL
  | .ifN _ _ => .IF
  | .ifClause _ _ => .IF_CLAUSE
  | .foreachN _ _ _ => .FOREACH
  | .jump _ => .JUMP
  | .unary _ _ => .UNARY
  | .member _ _ => .MEMBER
  | .indexN _ _ => .INDEX
  | .appN _ _ _ => .APPLICATION
  | .kwArg _ _ => .KEYWORD_ARG
  | .idN _ => .ID
  | .boolN _ => .BOOLEAN
  | .num _ => .NUMBER
  | .strN _ => .STRING
  | .arrN _ _ => .ARRAY
  | .dictN _ => .DICTIONARY
  | .kvN _ _ => .KV

mutual

/-- Mirrors `ast_free`: the number of `mem_free(ast, ...)` calls performed
while recursively destroying the tree, i.e. the number of AST nodes
released.  Optional children are freed only when present, exactly as the
NULL checks of ast.c do; owned strings are released but are not AST
nodes. -/
def astFree : Ast → Nat
  | .empty => 1
  | .seqN exps => astFreeList exps + 1
  | .binary _ _ lhs rhs => astFree lhs + astFree rhs + 1
  | .ternary pred conseq alt => astFree pred + astFree conseq + astFree alt + 1
  | .ifN clauses alt => astFreeList clauses + astFreeOpt alt + 1
  | .ifClause pred conseq => astFree pred + astFree conseq + 1
  | .foreachN ids exp body => astFreeList ids + astFreeOpt exp + astFreeOpt body + 1
  | .jump _ => 1
  | .unary _ exp => astFree exp + 1
  | .member obj fld => astFree obj + astFree fld + 1
  | .indexN ref idx => astFreeOpt ref + astFree idx + 1
  | .appN ref args kwArgs => astFreeOpt ref + astFreeList args + astFreeList kwArgs + 1
  | .kwArg kid exp => astFree kid + astFree exp + 1
  | .idN _ => 1
  | .boolN _ => 1
  | .num _ => 1
  | .strN _ => 1
  | .arrN _ elts => astFreeList elts + 1
  | .dictN map => astFreeList map + 1
  | .kvN key value => astFree key + astFree value + 1

/-- The `free_ast_list` helper of ast.c, as a node count. -/
def astFreeList : List Ast → Nat
  | [] => 0
  | a :: rest => astFree a + astFreeList rest

/-- Releasing an optional child behind a NULL check. -/
def astFreeOpt : Option Ast → Nat
  | none => 0
  | some a => astFree a

end

/-! ## Allocation accounting -/

/-- Allocation bookkeeping for one parse call: the oracle yields the
outcome of each successive `malloc` (an exhausted oracle means success),
`allocd` counts AST nodes handed out by `ast_new`, and `freed` counts AST
nodes released by `ast_free`. -/
structure Heap where
  oracle : List Bool
  allocd : Nat
  freed : Nat
deriving DecidableEq, Repr

/-- One `malloc` call: consume the next oracle entry. -/
def allocStep (h : Heap) : Bool × Heap :=
  (h.oracle.headD true, { h with oracle := h.oracle.tail })

/-! ## Parser state (parser.h `struct parser`) -/

/-- Mirrors `struct parser` plus the allocation bookkeeping. -/
structure Parser where
  lexer : Lexer
  ready : Bool
  token : Token
  heap : Heap
deriving DecidableEq, Repr

/-- Mirrors `enum parse_status` together with the `ast`/`error` payload of
parser.c's `struct result`: a successful result may carry no node (the
bare `with_status(SUCCESS)` used by `expect`). -/
inductive Res where
  | ok (a : Option Ast)
  | err (msg : String)
  | noMem
deriving Repr

abbrev PE := Except RunErr (Res × Parser)

/-- Mirrors `with_ast`: a NULL node becomes `NO_MEMORY`. -/
def mkWithAst : Option Ast → Res
  | none => .noMem
  | some a => .ok (some a)

/-- One `ast_new` call: consume the oracle and count a node on success. -/
def pNew (p : Parser) : Bool × Parser :=
  let (b, h) := allocStep p.heap
  if b then (true, { p with heap := { h with allocd := h.allocd + 1 } })
  else (false, { p with heap := h })

/-- One `string_dup` / `string_dup_n` call: consume the oracle; the
duplicated text is `none` on allocation failure (`NULL_STRING`). -/
def pDup (p : Parser) (s : String) : Option String × Parser :=
  let (b, h) := allocStep p.heap
  (if b then some s else none, { p with heap := h })

/-- One `ast_free` call on a complete subtree. -/
def pFree (p : Parser) (a : Ast) : Parser :=
  { p with heap := { p.heap with freed := p.heap.freed + astFree a } }

/-- Mirrors the parser's `peek`: pull one token of lookahead when none is
buffered. -/
def peekP (p : Parser) : Except RunErr (Token × Parser) :=
  if p.ready then .ok (p.token, p)
  else do
    let (t, lx) ← lexF (lexFuel p.lexer) p.lexer
    .ok (t, { p with lexer := lx, token := t, ready := true })

/-- Mirrors `accept` (via `accept_any` with a single alternative):
consume the lookahead when it has the wanted type. -/
def acceptT (p : Parser) (t : Token) : Except RunErr (Bool × Parser) := do
  let (tk, p) ← peekP p
  if tk = t then pure (true, { p with ready := false }) else pure (false, p)

/-- Mirrors `accept_any`: return the value paired with the first matching
alternative, consuming the token, or nothing. -/
def acceptAny (p : Parser) (alts : List (Token × ASub)) :
    Except RunErr (Option ASub × Parser) := do
  let (tk, p) ← peekP p
  match alts.find? (fun a => a.1 == tk) with
  | some alt => pure (some alt.2, { p with ready := false })
  | none => pure (none, p)

/-- Mirrors `accept(p, p->token)` as used by `expect(p, p->token, ...)`
in the literal rules: the wanted type is read from the lookahead buffer
before the comparison. -/
def acceptSelf (p : Parser) : Except RunErr (Bool × Parser) :=
  acceptT p p.token

/-! ## AST constructors (ast.c) -/

/-- Mirrors `ast_empty`. -/
def pAstEmpty (p : Parser) : Option Ast × Parser :=
  let (b, p) := pNew p
  (if b then some .empty else none, p)

/-- Mirrors `ast_id`: allocate the node, then duplicate the name (a
failed duplication leaves the `NULL_STRING` name in place). -/
def pAstId (p : Parser) (s : String) : Option Ast × Parser :=
  let (b, p) := pNew p
  if b then
    let (os, p) := pDup p s
    (some (.idN os), p)
  else (none, p)

/-- Mirrors `ast_string`. -/
def pAstString (p : Parser) (s : String) : Option Ast × Parser :=
  let (b, p) := pNew p
  if b then
    let (os, p) := pDup p s
    (some (.strN os), p)
  else (none, p)

/-- Mirrors `ast_number`. -/
def pAstNumber (p : Parser) (v : Int) : Option Ast × Parser :=
  let (b, p) := pNew p
  (if b then some (.num v) else none, p)

/-- Mirrors `ast_boolean`. -/
def pAstBoolean (p : Parser) (v : Bool) : Option Ast × Parser :=
  let (b, p) := pNew p
  (if b then some (.boolN (if v then .TRUE else .FALSE)) else none, p)

/-- Mirrors `ast_binary`. -/
def pAstBinary (p : Parser) (ty : AstTy) (sub : ASub) (lhs rhs : Ast) :
    Option Ast × Parser :=
  let (b, p) := pNew p
  (if b then some (.binary ty sub lhs rhs) else none, p)

/-- Mirrors `ast_ternary`. -/
def pAstTernary (p : Parser) (pred conseq alt : Ast) : Option Ast × Parser :=
  let (b, p) := pNew p
  (if b then some (.ternary pred conseq alt) else none, p)

/-- Mirrors `ast_member`. -/
def pAstMember (p : Parser) (obj fld : Ast) : Option Ast × Parser :=
  let (b, p) := pNew p
  (if b then some (.member obj fld) else none, p)

/-- Mirrors a bare `ast_new(type, subtype)` for payload-free variants. -/
def pAstJump (p : Parser) (sub : ASub) : Option Ast × Parser :=
  let (b, p) := pNew p
  (if b then some (.jump sub) else none, p)

/-- Mirrors `ast_new(AST_UNARY, ret)` plus the field store in `unary`. -/
def pAstUnary (p : Parser) (sub : ASub) (exp : Ast) : Option Ast × Parser :=
  let (b, p) := pNew p
  (if b then some (.unary sub exp) else none, p)

/-- Mirrors `ast_new(AST_KV, AST_NONE)` plus the field stores in
`dictionary`. -/
def pAstKv (p : Parser) (key value : Ast) : Option Ast × Parser :=
  let (b, p) := pNew p
  (if b then some (.kvN key value) else none, p)

/-- Mirrors `ast_new(AST_KEYWORD_ARG, AST_NONE)` plus the field stores in
`application`. -/
def pAstKwArg (p : Parser) (kid exp : Ast) : Option Ast × Parser :=
  let (b, p) := pNew p
  (if b then some (.kwArg kid exp) else none, p)

/-- Mirrors `ast_new(AST_INDEX, AST_NONE)` plus the field store in
`subscript` (the `ref` field stays NULL until `postfix` links it). -/
def pAstIndex (p : Parser) (idx : Ast) : Option Ast × Parser :=
  let (b, p) := pNew p
  (if b then some (.indexN none idx) else none, p)

/-- Mirrors `ast_new(AST_IF_CLAUSE, AST_NONE)` inside `ast_if_clause`. -/
def pAstIfClause (p : Parser) (pred conseq : Ast) : Option Ast × Parser :=
  let (b, p) := pNew p
  (if b then some (.ifClause pred conseq) else none, p)

/-- Mirrors the allocations of `ast_seq`, `ast_if`, `ast_foreach`,
`ast_app`, `ast_array` and `ast_dict`: the node is allocated up front and
its child collections start empty; the embedding carries the collections
as accumulators and materialises the node value at the end. -/
def pAllocNode (p : Parser) : Bool × Parser := pNew p

/-- Mirrors `strtoll` on a lexeme: unbounded conversion of the longest
valid digit prefix in the given base (int64 saturation is not modelled;
the verified inputs stay far below it). -/
def digitValC (c : Char) : Nat :=
  if isDigitC c then c.toNat - Char.toNat '0'
  else if ('a' ≤ c) && (c ≤ 'z') then c.toNat - Char.toNat 'a' + 10
  else if ('A' ≤ c) && (c ≤ 'Z') then c.toNat - Char.toNat 'A' + 10
  else 0

def validDigit (base : Nat) (c : Char) : Bool :=
  (isDigitC c || isAlphaC c) && digitValC c < base

def strtollM (s : List Char) (base : Nat) : Int :=
  ((s.takeWhile (validDigit base)).foldl (fun acc c => acc * base + digitValC c) 0 : Nat)

/-! ## Parser productions (parser.c)

Mutual recursion between the productions is resolved through a fuel-indexed
interpreter `pRun`: each body receives the recursive entry point `recur` for
the productions it re-enters, and loops inside a production are separate
fuel-indexed functions.  Fuel bounds only the recursion depth; all verified
runs use ample fuel. -/

inductive Rule where
  | expression | assignment | conditional | logicalOr | logicalAnd
  | equality | relational | additive | multiplicative | unaryRule
  | postfixRule | primary | arrayRule | dictionaryRule
  | subscriptRule | applicationRule
  | statement | sequenceRule | iterationRule | selectionRule
deriving DecidableEq, Repr

abbrev Recur := Rule → Parser → PE

/-- Mirrors `maybe_identifier`. -/
def maybeIdentifierB (p : Parser) : PE := do
  let (b, p) ← acceptT p .IDENTIFIER
  if b then
    let (os, p) := pDup p (String.mk p.lexer.lexeme)
    match os with
    | none => pure (.noMem, p)
    | some s =>
      let (oid, p) := pAstId p s
      pure (mkWithAst oid, p)
  else
    let (oe, p) := pAstEmpty p
    pure (mkWithAst oe, p)

/-- The shared do-while condition of `dictionary`, `array` and
`application`: `while (accept(p, TOKEN_COMMA) && peek(p) != close)`.
The loop body continues via `loop`; falling out of the loop continues via
`fin` (which checks the closing delimiter). -/
def sepCont (close : Token) (loop fin : Parser → PE) (p : Parser) : PE := do
  let (c, p) ← acceptT p .COMMA
  if c then do
    let (t, p) ← peekP p
    if t = close then fin p else loop p
  else fin p

/-- The exit path of `dictionary`: closing brace check and node return. -/
def dictFinish (map : List Ast) (p : Parser) : PE := do
  let (b, p) ← acceptT p .R_BRACE
  if b then pure (.ok (some (.dictN map)), p)
  else pure (.err ("dictionary: expected closing brace"), pFree p (.dictN map))

/-- The entry loop of `dictionary`, with every `goto cleanup` path freeing
the key, the value and the dictionary built so far exactly as the C code
does. -/
def dictLoop : Nat → Recur → List Ast → Parser → PE
  | 0, _, _, _ => .error .nofuel
  | fuel + 1, recur, map, p => do
    let (res, p) ← recur .expression p
    match res with
    | .ok (some key) =>
      if astTy key = .EMPTY then
        pure (.err ("dictionary: expected key"), pFree (pFree p key) (.dictN map))
      else do
        let (b, p) ← acceptT p .COLON
        if !b then
          pure (.err ("dictionary: expected colon"), pFree (pFree p key) (.dictN map))
        else do
          let (res2, p) ← recur .expression p
          match res2 with
          | .ok (some val) =>
            if astTy val = .EMPTY then
              pure (.err ("dictionary: expected value"),
                    pFree (pFree (pFree p key) val) (.dictN map))
            else
              let (okv, p) := pAstKv p key val
              match okv with
              | none => pure (.noMem, pFree (pFree (pFree p key) val) (.dictN map))
              | some kv =>
                sepCont .R_BRACE (dictLoop fuel recur (map ++ [kv]))
                  (dictFinish (map ++ [kv])) p
          | .ok none => .error .oob
          | r2 => pure (r2, pFree (pFree p key) (.dictN map))
    | .ok none => .error .oob
    | r => pure (r, pFree p (.dictN map))

/-- Mirrors `dictionary`. -/
def dictionaryB (fuel : Nat) (recur : Recur) (p : Parser) : PE := do
  let (b, p) ← acceptT p .L_BRACE
  if !b then pure (.err ("dictionary: expected opening brace"), p)
  else
    let (ba, p) := pAllocNode p
    if !ba then pure (.noMem, p)
    else do
      let (br, p) ← acceptT p .R_BRACE
      if br then pure (.ok (some (.dictN [])), p)
      else dictLoop fuel recur [] p

/-- The exit path of `array`. -/
def arrFinish (count : Nat) (elts : List Ast) (p : Parser) : PE := do
  let (b, p) ← acceptT p .R_BRACKET
  if b then pure (.ok (some (.arrN count elts)), p)
  else pure (.err ("array: expected closing bracket"), pFree p (.arrN count elts))

/-- The element loop of `array`. -/
def arrayLoop : Nat → Recur → Nat → List Ast → Parser → PE
  | 0, _, _, _, _ => .error .nofuel
  | fuel + 1, recur, count, elts, p => do
    let (res, p) ← recur .expression p
    match res with
    | .ok (some exp) =>
      if astTy exp = .EMPTY then
        pure (.err ("array: expected expression"),
              pFree (pFree p (.arrN count elts)) exp)
      else
        sepCont .R_BRACKET (arrayLoop fuel recur (count + 1) (elts ++ [exp]))
          (arrFinish (count + 1) (elts ++ [exp])) p
    | .ok none => .error .oob
    | r => pure (r, pFree p (.arrN count elts))

/-- Mirrors `array`. -/
def arrayB (fuel : Nat) (recur : Recur) (p : Parser) : PE := do
  let (b, p) ← acceptT p .L_BRACKET
  if !b then pure (.err ("array: expected opening bracket"), p)
  else
    let (ba, p) := pAllocNode p
    if !ba then pure (.noMem, p)
    else do
      let (br, p) ← acceptT p .R_BRACKET
      if br then pure (.ok (some (.arrN 0 [])), p)
      else arrayLoop fuel recur 0 [] p

/-- Mirrors the `string` production (string literals). -/
def stringB (p : Parser) : PE := do
  let (b, p) ← acceptSelf p
  if b then
    let (os, p) := pDup p (String.mk p.lexer.lexeme)
    match os with
    | none => pure (.noMem, p)
    | some s =>
      let (onode, p) := pAstString p s
      pure (mkWithAst onode, p)
  else pure (.err ("literal: expected string literal"), p)

/-- Mirrors the `number` production. -/
def numberB (p : Parser) : PE := do
  let lexeme := p.lexer.lexeme
  let (b, p) ← acceptSelf p
  if b then
    match p.token with
    | .BIN_NUMBER =>
      let (onode, p) := pAstNumber p (strtollM lexeme 2)
      pure (mkWithAst onode, p)
    | .OCT_NUMBER =>
      let (onode, p) := pAstNumber p (strtollM lexeme 8)
      pure (mkWithAst onode, p)
    | .DEC_NUMBER =>
      let (onode, p) := pAstNumber p (strtollM lexeme 10)
      pure (mkWithAst onode, p)
    | .HEX_NUMBER =>
      let (onode, p) := pAstNumber p (strtollM lexeme 16)
      pure (mkWithAst onode, p)
    | _ => pure (.err ("invalid number: `" ++ String.mk lexeme ++ "'"), p)
  else pure (.err ("literal: expected integer constant"), p)

/-- Mirrors the `boolean` production. -/
def booleanB (p : Parser) : PE := do
  let (b, p) ← acceptSelf p
  if b then
    let (onode, p) := pAstBoolean p (p.token = .TRUE)
    pure (mkWithAst onode, p)
  else pure (.err ("literal: expected boolean value"), p)

/-- Mirrors `literal`. -/
def literalB (recur : Recur) (p : Parser) : PE := do
  let (t, p) ← peekP p
  match t with
  | .TRUE | .FALSE => booleanB p
  | .DEC_NUMBER | .BIN_NUMBER | .OCT_NUMBER | .HEX_NUMBER => numberB p
  | .STRING | .MULTILINE_STRING => stringB p
  | .L_BRACKET => recur .arrayRule p
  | .L_BRACE => recur .dictionaryRule p
  | _ =>
    let (oe, p) := pAstEmpty p
    pure (mkWithAst oe, p)

/-- Mirrors `primary`. -/
def primaryB (recur : Recur) (p : Parser) : PE := do
  let (t, p) ← peekP p
  match t with
  | .L_PAREN => do
    let (_, p) ← acceptT p .L_PAREN
    let (res, p) ← recur .expression p
    match res with
    | .ok (some e) =>
      if astTy e = .EMPTY then
        pure (.err ("invalid expression"), pFree p e)
      else do
        let (b, p) ← acceptT p .R_PAREN
        if b then pure (.ok (some e), p)
        else pure (.err ("expected closing paren"), pFree p e)
    | .ok none => .error .oob
    | r => pure (r, p)
  | .IDENTIFIER => maybeIdentifierB p
  | _ => literalB recur p

/-- Mirrors `subscript`. -/
def subscriptB (recur : Recur) (p : Parser) : PE := do
  let (b, p) ← acceptT p .L_BRACKET
  if !b then pure (.err ("subscript: expected opening bracket"), p)
  else do
    let (res, p) ← recur .expression p
    match res with
    | .ok (some idx) =>
      if astTy idx = .EMPTY then
        pure (.err ("subscript: expected expression"), pFree p idx)
      else do
        let (b2, p) ← acceptT p .R_BRACKET
        if !b2 then pure (.err ("subscript: expected closing bracket"), pFree p idx)
        else
          let (onode, p) := pAstIndex p idx
          match onode with
          | none => pure (.noMem, pFree p idx)
          | some node => pure (.ok (some node), p)
    | .ok none => .error .oob
    | r => pure (r, p)

/-- The exit path of `application`. -/
def appFinish (args kwArgs : List Ast) (p : Parser) : PE := do
  let (b, p) ← acceptT p .R_PAREN
  if b then pure (.ok (some (.appN none args kwArgs)), p)
  else
    pure (.err ("application: expected closing paren"),
          pFree p (.appN none args kwArgs))

/-- The argument loop of `application`, carrying the sticky `keywords`
flag. -/
def appLoop : Nat → Recur → Bool → List Ast → List Ast → Parser → PE
  | 0, _, _, _, _, _ => .error .nofuel
  | fuel + 1, recur, keywords, args, kwArgs, p => do
    let (res, p) ← recur .expression p
    match res with
    | .ok (some arg) =>
      if astTy arg = .EMPTY then
        pure (.err ("application: expected argument"),
              pFree (pFree p (.appN none args kwArgs)) arg)
      else do
        let (colon, p) ← acceptT p .COLON
        let keywords := keywords || colon
        if keywords && !colon then
          pure (.err ("application: expected keyword"),
                pFree (pFree p (.appN none args kwArgs)) arg)
        else
          if !keywords then
            sepCont .R_PAREN (appLoop fuel recur keywords (args ++ [arg]) kwArgs)
              (appFinish (args ++ [arg]) kwArgs) p
          else
            if astTy arg ≠ .ID then
              pure (.err ("application: expected kwarg name"),
                    pFree (pFree p (.appN none args kwArgs)) arg)
            else do
              let (res2, p) ← recur .expression p
              match res2 with
              | .ok (some value) =>
                if astTy value = .EMPTY then
                  pure (.err ("application: expected kwarg value"),
                        pFree (pFree (pFree p (.appN none args kwArgs)) arg) value)
                else
                  let (okw, p) := pAstKwArg p arg value
                  match okw with
                  | none =>
                    pure (.noMem,
                          pFree (pFree (pFree p (.appN none args kwArgs)) arg) value)
                  | some kw =>
                    sepCont .R_PAREN (appLoop fuel recur keywords args (kwArgs ++ [kw]))
                      (appFinish args (kwArgs ++ [kw])) p
              | .ok none => .error .oob
              | r2 => pure (r2, pFree (pFree p (.appN none args kwArgs)) arg)
    | .ok none => .error .oob
    | r => pure (r, pFree p (.appN none args kwArgs))

/-- Mirrors `application` (the `ref` field stays NULL until `postfix`
links the callee in). -/
def applicationB (fuel : Nat) (recur : Recur) (p : Parser) : PE := do
  let (b, p) ← acceptT p .L_PAREN
  if !b then pure (.err ("application: expected opening paren"), p)
  else
    let (ba, p) := pAllocNode p
    if !ba then pure (.noMem, p)
    else do
      let (br, p) ← acceptT p .R_PAREN
      if br then pure (.ok (some (.appN none [] [])), p)
      else appLoop fuel recur false [] [] p

/-- The `app->ref = ast` store of `postfix`. -/
def setAppRef (a ref : Ast) : Ast :=
  match a with
  | .appN _ args kwArgs => .appN (some ref) args kwArgs
  | x => x

/-- The `index->ref = ast` store of `postfix`. -/
def setIndexRef (a ref : Ast) : Ast :=
  match a with
  | .indexN _ idx => .indexN (some ref) idx
  | x => x

/-- The extension loop of `postfix` over an identifier-rooted chain.  On a
failed `ast_member` allocation the C code frees `ast` but not `right`, and
the embedding reproduces exactly that. -/
def postfixLoop : Nat → Recur → Ast → Parser → PE
  | 0, _, _, _ => .error .nofuel
  | fuel + 1, recur, ast, p => do
    let (t, p) ← peekP p
    match t with
    | .DOT => do
      let (_, p) ← acceptT p .DOT
      let (res, p) ← recur .primary p
      match res with
      | .ok (some right) =>
        if astTy right = .EMPTY then
          pure (.err ("expected field name"), pFree (pFree p right) ast)
        else if astTy right ≠ .ID then
          pure (.err ("field name must be plain id"), pFree (pFree p right) ast)
        else
          let (om, p) := pAstMember p ast right
          match om with
          | none => pure (.noMem, pFree p ast)
          | some m => postfixLoop fuel recur m p
      | .ok none => .error .oob
      | r => pure (r, pFree p ast)
    | .L_PAREN => do
      let (res, p) ← recur .applicationRule p
      match res with
      | .ok (some app) => postfixLoop fuel recur (setAppRef app ast) p
      | .ok none => .error .oob
      | r => pure (r, pFree p ast)
    | .L_BRACKET => do
      let (res, p) ← recur .subscriptRule p
      match res with
      | .ok (some node) => postfixLoop fuel recur (setIndexRef node ast) p
      | .ok none => .error .oob
      | r => pure (r, pFree p ast)
    | _ => pure (.ok (some ast), p)

/-- Mirrors `postfix`: the extension loop is entered only when the primary
was a plain identifier; any other primary result is returned as-is. -/
def postfixB (fuel : Nat) (recur : Recur) (p : Parser) : PE := do
  let (res, p) ← recur .primary p
  match res with
  | .ok (some a) =>
    if astTy a ≠ .ID then pure (.ok (some a), p)
    else postfixLoop fuel recur a p
  | .ok none => .error .oob
  | r => pure (r, p)

/-- Mirrors `unary`. -/
def unaryB (recur : Recur) (p : Parser) : PE := do
  let (ret, p) ← acceptAny p [(.NOT, ASub.NOT), (.PLUS, ASub.PLUS), (.MINUS, ASub.MINUS)]
  let (res, p) ← recur .postfixRule p
  match res with
  | .ok (some a) =>
    if astTy a = .EMPTY then
      match ret with
      | none => pure (.ok (some a), p)
      | some _ => pure (.err ("unary: expected expression"), pFree p a)
    else
      match ret with
      | none => pure (.ok (some a), p)
      | some sub =>
        let (ou, p) := pAstUnary p sub a
        match ou with
        | none => pure (.noMem, pFree p a)
        | some u => pure (.ok (some u), p)
  | .ok none => .error .oob
  | r => pure (r, p)

/-- The operator loop of `multiplicative`. -/
def multLoop : Nat → Recur → Ast → Parser → PE
  | 0, _, _, _ => .error .nofuel
  | fuel + 1, recur, ast, p => do
    let (ret, p) ← acceptAny p [(.STAR, ASub.MUL), (.PERCENT, ASub.MOD), (.SLASH, ASub.DIV)]
    match ret with
    | none => pure (.ok (some ast), p)
    | some sub => do
      let (res, p) ← recur .unaryRule p
      match res with
      | .ok (some rhs) =>
        if astTy rhs = .EMPTY then
          pure (.err ("multiplicative: expected expression"), pFree (pFree p ast) rhs)
        else
          let (ob, p) := pAstBinary p .ARITHMETIC sub ast rhs
          match ob with
          | none => pure (.noMem, pFree (pFree p ast) rhs)
          | some b => multLoop fuel recur b p
      | .ok none => .error .oob
      | r => pure (r, pFree p ast)

/-- Mirrors `multiplicative`. -/
def multiplicativeB (fuel : Nat) (recur : Recur) (p : Parser) : PE := do
  let (res, p) ← recur .unaryRule p
  match res with
  | .ok (some a) => multLoop fuel recur a p
  | .ok none => .error .oob
  | r => pure (r, p)

/-- The operator loop of `additive`. -/
def addLoop : Nat → Recur → Ast → Parser → PE
  | 0, _, _, _ => .error .nofuel
  | fuel + 1, recur, ast, p => do
    let (ret, p) ← acceptAny p [(.PLUS, ASub.ADD), (.MINUS, ASub.SUB)]
    match ret with
    | none => pure (.ok (some ast), p)
    | some sub => do
      let (res, p) ← recur .multiplicative p
      match res with
      | .ok (some rhs) =>
        if astTy rhs = .EMPTY then
          pure (.err ("additive: expected expression"), pFree (pFree p ast) rhs)
        else
          let (ob, p) := pAstBinary p .ARITHMETIC sub ast rhs
          match ob with
          | none => pure (.noMem, pFree (pFree p ast) rhs)
          | some b => addLoop fuel recur b p
      | .ok none => .error .oob
      | r => pure (r, pFree p ast)

/-- Mirrors `additive`. -/
def additiveB (fuel : Nat) (recur : Recur) (p : Parser) : PE := do
  let (res, p) ← recur .multiplicative p
  match res with
  | .ok (some a) => addLoop fuel recur a p
  | .ok none => .error .oob
  | r => pure (r, p)

/-- The right-hand side handling shared by the (at most one) relational
operator of `relational`. -/
def relationalRhs (recur : Recur) (sub : ASub) (lhs : Ast) (p : Parser) : PE := do
  let (res, p) ← recur .additive p
  match res with
  | .ok (some rhs) =>
    if astTy rhs = .EMPTY then
      pure (.err ("relational: expected expression"), pFree (pFree p lhs) rhs)
    else
      let (ob, p) := pAstBinary p .RELATIONAL sub lhs rhs
      match ob with
      | none => pure (.noMem, pFree (pFree p lhs) rhs)
      | some b => pure (.ok (some b), p)
  | .ok none => .error .oob
  | r => pure (r, pFree p lhs)

/-- Mirrors `relational`. -/
def relationalB (recur : Recur) (p : Parser) : PE := do
  let (res, p) ← recur .additive p
  match res with
  | .ok (some lhs) => do
    let (ret, p) ← acceptAny p
      [(.LT, ASub.LT), (.LE, ASub.LE), (.GT, ASub.GT), (.GE, ASub.GE),
       (.IN, ASub.IN), (.NOT, ASub.NOT_IN)]
    match ret with
    | none => pure (.ok (some lhs), p)
    | some sub =>
      if sub = ASub.NOT_IN then do
        let (bin, p) ← acceptT p .IN
        if !bin then pure (.err ("expected `in' after `not'"), pFree p lhs)
        else relationalRhs recur sub lhs p
      else relationalRhs recur sub lhs p
  | .ok none => .error .oob
  | r => pure (r, p)

/-- Mirrors `equality` (the node type is `AST_RELATIONAL`, as in the C
code). -/
def equalityB (recur : Recur) (p : Parser) : PE := do
  let (res, p) ← recur .relational p
  match res with
  | .ok (some lhs) => do
    let (ret, p) ← acceptAny p [(.EQ, ASub.EQ), (.NE, ASub.NE)]
    match ret with
    | none => pure (.ok (some lhs), p)
    | some sub => do
      let (res2, p) ← recur .relational p
      match res2 with
      | .ok (some rhs) =>
        if astTy rhs = .EMPTY then
          pure (.err ("equality: expected expression"), pFree (pFree p lhs) rhs)
        else
          let (ob, p) := pAstBinary p .RELATIONAL sub lhs rhs
          match ob with
          | none => pure (.noMem, pFree (pFree p lhs) rhs)
          | some b => pure (.ok (some b), p)
      | .ok none => .error .oob
      | r2 => pure (r2, pFree p lhs)
  | .ok none => .error .oob
  | r => pure (r, p)

/-- The operator loop of `logical_and`. -/
def andLoop : Nat → Recur → Ast → Parser → PE
  | 0, _, _, _ => .error .nofuel
  | fuel + 1, recur, ast, p => do
    let (b, p) ← acceptT p .AND
    if !b then pure (.ok (some ast), p)
    else do
      let (res, p) ← recur .equality p
      match res with
      | .ok (some rhs) =>
        if astTy rhs = .EMPTY then
          pure (.err ("logical and: expected expression"), pFree (pFree p ast) rhs)
        else
          let (ob, p) := pAstBinary p .LOGICAL .AND ast rhs
          match ob with
          | none => pure (.noMem, pFree (pFree p ast) rhs)
          | some bn => andLoop fuel recur bn p
      | .ok none => .error .oob
      | r => pure (r, pFree p ast)

/-- Mirrors `logical_and`. -/
def logicalAndB (fuel : Nat) (recur : Recur) (p : Parser) : PE := do
  let (res, p) ← recur .equality p
  match res with
  | .ok (some a) => andLoop fuel recur a p
  | .ok none => .error .oob
  | r => pure (r, p)

/-- The operator loop of `logical_or`. -/
def orLoop : Nat → Recur → Ast → Parser → PE
  | 0, _, _, _ => .error .nofuel
  | fuel + 1, recur, ast, p => do
    let (b, p) ← acceptT p .OR
    if !b then pure (.ok (some ast), p)
    else do
      let (res, p) ← recur .logicalAnd p
      match res with
      | .ok (some rhs) =>
        if astTy rhs = .EMPTY then
          pure (.err ("logical or: expected expression"), pFree (pFree p ast) rhs)
        else
          let (ob, p) := pAstBinary p .LOGICAL .OR ast rhs
          match ob with
          | none => pure (.noMem, pFree (pFree p ast) rhs)
          | some bn => orLoop fuel recur bn p
      | .ok none => .error .oob
      | r => pure (r, pFree p ast)

/-- Mirrors `logical_or`. -/
def logicalOrB (fuel : Nat) (recur : Recur) (p : Parser) : PE := do
  let (res, p) ← recur .logicalAnd p
  match res with
  | .ok (some a) => orLoop fuel recur a p
  | .ok none => .error .oob
  | r => pure (r, p)

/-- Mirrors `conditional` (the ternary operator). -/
def conditionalB (recur : Recur) (p : Parser) : PE := do
  let (res, p) ← recur .logicalOr p
  match res with
  | .ok (some e) => do
    let (b, p) ← acceptT p .TERNARY
    if !b then pure (.ok (some e), p)
    else do
      let (res2, p) ← recur .expression p
      match res2 with
      | .ok (some conseq) =>
        if astTy conseq = .EMPTY then
          pure (.err ("ternary: expected true clause"), pFree (pFree p e) conseq)
        else do
          let (bc, p) ← acceptT p .COLON
          if !bc then
            pure (.err ("ternary: expected colon"), pFree (pFree p e) conseq)
          else do
            let (res3, p) ← recur .expression p
            match res3 with
            | .ok (some alt) =>
              if astTy alt = .EMPTY then
                pure (.err ("ternary: expected false clause"),
                      pFree (pFree (pFree p e) conseq) alt)
              else
                let (ot, p) := pAstTernary p e conseq alt
                match ot with
                | none => pure (.noMem, pFree (pFree (pFree p e) conseq) alt)
                | some t => pure (.ok (some t), p)
            | .ok none => .error .oob
            | r3 => pure (r3, pFree (pFree p e) conseq)
      | .ok none => .error .oob
      | r2 => pure (r2, pFree p e)
  | .ok none => .error .oob
  | r => pure (r, p)

/-- Mirrors `assignment`. -/
def assignmentB (recur : Recur) (p : Parser) : PE := do
  let (res, p) ← recur .conditional p
  match res with
  | .ok (some lhs) => do
    let (ret, p) ← acceptAny p
      [(.ASSIGN, ASub.ASSIGN), (.ADD_ASSIGN, ASub.ADD_ASSIGN),
       (.SUB_ASSIGN, ASub.SUB_ASSIGN), (.MUL_ASSIGN, ASub.MUL_ASSIGN),
       (.DIV_ASSIGN, ASub.DIV_ASSIGN), (.MOD_ASSIGN, ASub.MOD_ASSIGN)]
    match ret with
    | none => pure (.ok (some lhs), p)
    | some sub =>
      if astTy lhs ≠ .ID then
        pure (.err ("assignment target must be an id"), pFree p lhs)
      else do
        let (res2, p) ← recur .expression p
        match res2 with
        | .ok (some rhs) =>
          if astTy rhs = .EMPTY then
            pure (.err ("assignment: expected expression"), pFree (pFree p lhs) rhs)
          else
            let (ob, p) := pAstBinary p .ASSIGNMENT sub lhs rhs
            match ob with
            | none => pure (.noMem, pFree (pFree p lhs) rhs)
            | some b => pure (.ok (some b), p)
        | .ok none => .error .oob
        | r2 => pure (r2, pFree p lhs)
  | .ok none => .error .oob
  | r => pure (r, p)

/-- The bound-variable loop of `iteration` (`foreach`). -/
def iterIds : Nat → Recur → List Ast → Parser → PE
  | 0, _, _, _ => .error .nofuel
  | fuel + 1, recur, ids, p => do
    let (res, p) ← maybeIdentifierB p
    match res with
    | .ok (some idn) =>
      if astTy idn ≠ .ID then
        pure (.err ("foreach: expected identifier"),
              pFree (pFree p (.foreachN ids none none)) idn)
      else do
        let (bc, p) ← acceptT p .COMMA
        if bc then iterIds fuel recur (ids ++ [idn]) p
        else iterTail recur (ids ++ [idn]) p
    | .ok none => .error .oob
    | r => pure (r, pFree p (.foreachN ids none none))
where
  /-- The colon, iterable, body and `endforeach` handling of
  `iteration`. -/
  iterTail (recur : Recur) (ids : List Ast) (p : Parser) : PE := do
    let (bc, p) ← acceptT p .COLON
    if !bc then
      pure (.err ("foreach: expected colon"), pFree p (.foreachN ids none none))
    else do
      let (res, p) ← recur .expression p
      match res with
      | .ok (some e) =>
        if astTy e = .EMPTY then
          pure (.err ("foreach: expected expression"),
                pFree (pFree p (.foreachN ids none none)) e)
        else do
          let (res2, p) ← recur .sequenceRule p
          match res2 with
          | .ok (some body) => do
            let (be, p) ← acceptT p .ENDFOREACH
            if be then pure (.ok (some (.foreachN ids (some e) (some body))), p)
            else
              pure (.err ("foreach: expected endforeach"),
                    pFree p (.foreachN ids (some e) (some body)))
          | .ok none => .error .oob
          | r2 => pure (r2, pFree p (.foreachN ids (some e) none))
      | .ok none => .error .oob
      | r => pure (r, pFree p (.foreachN ids none none))

/-- Mirrors `iteration`. -/
def iterationB (fuel : Nat) (recur : Recur) (p : Parser) : PE := do
  let (b, p) ← acceptT p .FOREACH
  if !b then pure (.err ("foreach: expected `foreach' keyword"), p)
  else
    let (ba, p) := pAllocNode p
    if !ba then pure (.noMem, p)
    else iterIds fuel recur [] p

/-- The `endif` handling of `selection`. -/
def selEnd (clauses : List Ast) (alt : Option Ast) (p : Parser) : PE := do
  let (be, p) ← acceptT p .ENDIF
  if be then pure (.ok (some (.ifN clauses alt)), p)
  else pure (.err ("if: expected endif"), pFree p (.ifN clauses alt))

/-- The optional `else` branch of `selection`. -/
def selTail (recur : Recur) (clauses : List Ast) (p : Parser) : PE := do
  let (be, p) ← acceptT p .ELSE
  if be then do
    let (res, p) ← recur .sequenceRule p
    match res with
    | .ok (some alt) => selEnd clauses (some alt) p
    | .ok none => .error .oob
    | r => pure (r, pFree p (.ifN clauses none))
  else selEnd clauses none p

/-- The clause loop of `selection` (`if` / `elif`). -/
def selClauses : Nat → Recur → List Ast → Parser → PE
  | 0, _, _, _ => .error .nofuel
  | fuel + 1, recur, clauses, p => do
    let (res, p) ← recur .expression p
    match res with
    | .ok (some pred) =>
      if astTy pred = .EMPTY then
        pure (.err ("if: expected predicate"),
              pFree (pFree p (.ifN clauses none)) pred)
      else do
        let (res2, p) ← recur .sequenceRule p
        match res2 with
        | .ok (some conseq) =>
          let (oc, p) := pAstIfClause p pred conseq
          match oc with
          | none =>
            pure (.noMem, pFree (pFree (pFree p (.ifN clauses none)) pred) conseq)
          | some c => do
            let (be, p) ← acceptT p .ELIF
            if be then selClauses fuel recur (clauses ++ [c]) p
            else selTail recur (clauses ++ [c]) p
        | .ok none => .error .oob
        | r2 => pure (r2, pFree (pFree p (.ifN clauses none)) pred)
    | .ok none => .error .oob
    | r => pure (r, pFree p (.ifN clauses none))

/-- Mirrors `selection`. -/
def selectionB (fuel : Nat) (recur : Recur) (p : Parser) : PE := do
  let (b, p) ← acceptT p .IF
  if !b then pure (.err ("if: expected `if' keyword"), p)
  else
    let (ba, p) := pAllocNode p
    if !ba then pure (.noMem, p)
    else selClauses fuel recur [] p

/-- Mirrors `statement`. -/
def statementB (recur : Recur) (p : Parser) : PE := do
  let (t, p) ← peekP p
  match t with
  | .END =>
    let (oe, p) := pAstEmpty p
    pure (mkWithAst oe, p)
  | .IF => recur .selectionRule p
  | .FOREACH => recur .iterationRule p
  | .BREAK => do
    let (_, p) ← acceptT p .BREAK
    let (oj, p) := pAstJump p .BREAK
    pure (mkWithAst oj, p)
  | .CONTINUE => do
    let (_, p) ← acceptT p .CONTINUE
    let (oj, p) := pAstJump p .CONTINUE
    pure (mkWithAst oj, p)
  | _ => recur .expression p

/-- The statement collection loop of `sequence`: append the pending
statement, parse the next one, stop at an Empty statement (which is
freed and discarded). -/
def seqLoop : Nat → Recur → List Ast → Ast → Parser → PE
  | 0, _, _, _, _ => .error .nofuel
  | fuel + 1, recur, acc, cur, p => do
    let (res, p) ← recur .statement p
    match res with
    | .ok (some a) =>
      if astTy a ≠ .EMPTY then seqLoop fuel recur (acc ++ [cur]) a p
      else pure (.ok (some (.seqN (acc ++ [cur]))), pFree p a)
    | .ok none => .error .oob
    | r => pure (r, pFree p (.seqN (acc ++ [cur])))

/-- Mirrors `sequence`: an Empty first statement is returned as-is;
otherwise statements are collected by `seqLoop`. -/
def sequenceB (fuel : Nat) (recur : Recur) (p : Parser) : PE := do
  let (res, p) ← recur .statement p
  match res with
  | .ok (some a) =>
    if astTy a = .EMPTY then pure (.ok (some a), p)
    else
      let (ba, p) := pAllocNode p
      if !ba then pure (.noMem, pFree p a)
      else seqLoop fuel recur [] a p
  | .ok none => .error .oob
  | r => pure (r, p)

/-- One step of the production interpreter: dispatch a rule to its body,
handing it the next-smaller interpreter for re-entry. -/
def pStep (fuel : Nat) (recur : Recur) : Rule → Parser → PE
  | .expression, p => recur .assignment p
  | .assignment, p => assignmentB recur p
  | .conditional, p => conditionalB recur p
  | .logicalOr, p => logicalOrB fuel recur p
  | .logicalAnd, p => logicalAndB fuel recur p
  | .equality, p => equalityB recur p
  | .relational, p => relationalB recur p
  | .additive, p => additiveB fuel recur p
  | .multiplicative, p => multiplicativeB fuel recur p
  | .unaryRule, p => unaryB recur p
  | .postfixRule, p => postfixB fuel recur p
  | .primary, p => primaryB recur p
  | .arrayRule, p => arrayB fuel recur p
  | .dictionaryRule, p => dictionaryB fuel recur p
  | .subscriptRule, p => subscriptB recur p
  | .applicationRule, p => applicationB fuel recur p
  | .statement, p => statementB recur p
  | .sequenceRule, p => sequenceB fuel recur p
  | .iterationRule, p => iterationB fuel recur p
  | .selectionRule, p => selectionB fuel recur p

/-- The fuel-indexed production interpreter. -/
def pRun : Nat → Rule → Parser → PE
  | 0, _, _ => .error .nofuel
  | fuel + 1, r, p => pStep fuel (pRun fuel) r p

/-! ## The public `parse` entry point (parser.c `parse`) -/

/-- Mirrors `struct parse_result`: either the root node or an owned error
message (allocation failure yields the fixed out-of-memory message). -/
inductive ParseResult where
  | okA (a : Ast)
  | errS (msg : String)
deriving Repr

/-- A fresh parser over the given source (parser zeroed, tokenizer
initialised), with the given allocation oracle. -/
def pInit (oracle : List Bool) (src : String) : Parser :=
  { lexer := lexerInit src.data, ready := false, token := .INVALID,
    heap := { oracle := oracle, allocd := 0, freed := 0 } }

/-- Mirrors `parse`: run the `sequence` production to completion and fold
the tri-state result into a parse result. -/
def parseFull (fuel : Nat) (oracle : List Bool) (src : String) :
    Except RunErr (ParseResult × Parser) := do
  let (res, p) ← pRun fuel .sequenceRule (pInit oracle src)
  match res with
  | .ok (some a) => pure (.okA a, p)
  | .ok none => .error .oob
  | .err m => pure (.errS m, p)
  | .noMem => pure (.errS ("not enough memory"), p)

/-- Ample fuel for every concrete parse verified below. -/
def pFuel : Nat := 200

/-- The root node of a successful parse with no allocation failures. -/
def parseAst (src : String) : Option Ast :=
  match parseFull pFuel [] src with
  | .ok (.okA a, _) => some a
  | _ => none

/-- The error message of a failed parse with no allocation failures. -/
def parseErr (src : String) : Option String :=
  match parseFull pFuel [] src with
  | .ok (.errS m, _) => some m
  | _ => none

/-- Parse under an allocation oracle, reporting the outcome together with
the number of AST nodes allocated and the number released. -/
def parseMem (oracle : List Bool) (src : String) :
    Option (ParseResult × Nat × Nat) :=
  match parseFull pFuel oracle src with
  | .ok (r, p) => some (r, p.heap.allocd, p.heap.freed)
  | .error _ => none

/-! ## Tree predicates used by the claims -/

mutual

/-- Whether the tree contains a binary node whose left operand is the
Empty node. -/
def hasEmptyLeftBin : Ast → Bool
  | .empty => false
  | .seqN exps => hasEmptyLeftBinList exps
  | .binary _ _ lhs rhs =>
    (match lhs with | .empty => true | _ => false) ||
      hasEmptyLeftBin lhs || hasEmptyLeftBin rhs
  | .ternary a b c => hasEmptyLeftBin a || hasEmptyLeftBin b || hasEmptyLeftBin c
  | .ifN clauses alt => hasEmptyLeftBinList clauses || hasEmptyLeftBinOpt alt
  | .ifClause a b => hasEmptyLeftBin a || hasEmptyLeftBin b
  | .foreachN ids e bd =>
    hasEmptyLeftBinList ids || hasEmptyLeftBinOpt e || hasEmptyLeftBinOpt bd
  | .jump _ => false
  | .unary _ e => hasEmptyLeftBin e
  | .member a b => hasEmptyLeftBin a || hasEmptyLeftBin b
  | .indexN r i => hasEmptyLeftBinOpt r || hasEmptyLeftBin i
  | .appN r args kws =>
    hasEmptyLeftBinOpt r || hasEmptyLeftBinList args || hasEmptyLeftBinList kws
  | .kwArg a b => hasEmptyLeftBin a || hasEmptyLeftBin b
  | .idN _ => false
  | .boolN _ => false
  | .num _ => false
  | .strN _ => false
  | .arrN _ elts => hasEmptyLeftBinList elts
  | .dictN m => hasEmptyLeftBinList m
  | .kvN k v => hasEmptyLeftBin k || hasEmptyLeftBin v

def hasEmptyLeftBinList : List Ast → Bool
  | [] => false
  | a :: rest => hasEmptyLeftBin a || hasEmptyLeftBinList rest

def hasEmptyLeftBinOpt : Option Ast → Bool
  | none => false
  | some a => hasEmptyLeftBin a

end

/-- Whether the given source parses successfully into a tree containing a
binary node with the Empty node as its left operand. -/
def emptyLeftOk (src : String) : Bool :=
  match parseAst src with
  | some a => hasEmptyLeftBin a
  | none => false

/-- The parser state after a successful step, used to name intermediate
states in witness statements. -/
def resState (x : PE) : Parser :=
  match x with
  | .ok (_, q) => q
  | .error _ => pInit [] ("")

/-- The parser state left behind by `acceptT`. -/
def acceptState (p : Parser) (t : Token) : Parser :=
  match acceptT p t with
  | .ok (_, q) => q
  | .error _ => p

/-- The parser state left behind by `peekP`. -/
def peekState (p : Parser) : Parser :=
  match peekP p with
  | .ok (_, q) => q
  | .error _ => p

/-- A fresh tokenizer over the given source string. -/
def lexerOf (src : String) : Lexer := lexerInit src.data

/-- The fresh tokenizer with the out-of-memory latch already set. -/
def latchedLexer (src : String) : Lexer := { lexerOf src with error := true }

/-- A tokenizer whose lexeme buffer is full and whose next reallocation
is doomed to fail. -/
def doomedLexer (src : String) : Lexer :=
  { lexerOf src with lexemeMax := 0, growOracle := [false] }

/-- A source that ends inside an unterminated triple-quoted string:
three opening quotes, a body, and only two closing quotes. -/
def unterminatedML : String :=
  String.mk (List.replicate 3 qch ++ ("abc").data ++ List.replicate 2 qch)

/-- The tokenizer state left behind by one `lex` call on the latched
tokenizer. -/
def latchedAfter (src : String) (fuel : Nat) : Lexer :=
  match lexF fuel (latchedLexer src) with
  | .ok (_, m) => m
  | .error _ => latchedLexer src

/-! ## Error-latch invariance of the tokenizer (lexer.c `grow`, `lex`)

With the sticky latch set, `grow` always fails, so `append` degenerates to
`advance`, every `finish` degenerates to `fail`, and nothing ever clears
`error`.  The lemmas below push that fact through every scan routine. -/

theorem grow_err (l : Lexer) (h : l.error = true) : grow l = (false, l) := by
  simp [grow, h]

theorem appendL_err (l : Lexer) (h : l.error = true) : appendL l = .ok (advanceL l) := by
  simp [appendL, grow, h, pure, Except.pure]

theorem finishL_err (l : Lexer) (t : Token) (h : l.error = true) :
    finishL l t = (failR, l) := by
  simp [finishL, grow, h]

theorem matchC_err (l : Lexer) (c : Char) (b : Bool) (l' : Lexer)
    (h : l.error = true) (hm : matchC l c = .ok (b, l')) : l'.error = true := by
  unfold matchC at hm
  cases hp : peekE l with
  | error e => rw [hp] at hm; exact absurd hm (by simp [Bind.bind, Except.bind])
  | ok c' =>
    rw [hp] at hm
    simp only [Bind.bind, Except.bind] at hm
    split at hm <;>
      (simp only [pure, Except.pure, Except.ok.injEq, Prod.mk.injEq] at hm;
       rcases hm with ⟨-, rfl⟩) <;> simpa [advanceL] using h

theorem acceptL_err (l : Lexer) (c : Char) (b : Bool) (l' : Lexer)
    (h : l.error = true) (hm : acceptL l c = .ok (b, l')) : l'.error = true := by
  unfold acceptL at hm
  cases hp : peekE l with
  | error e => rw [hp] at hm; exact absurd hm (by simp [Bind.bind, Except.bind])
  | ok c' =>
    rw [hp] at hm
    simp only [Bind.bind, Except.bind] at hm
    split at hm
    · rw [appendL_err l h] at hm
      simp only [Bind.bind, Except.bind, pure, Except.pure,
        Except.ok.injEq, Prod.mk.injEq] at hm
      rcases hm with ⟨-, rfl⟩
      simpa [advanceL] using h
    · simp only [pure, Except.pure, Except.ok.injEq, Prod.mk.injEq] at hm
      rcases hm with ⟨-, rfl⟩
      exact h

theorem symbolId_err : ∀ (fuel : Nat) (l : Lexer) (r : CRes) (l' : Lexer),
    l.error = true → symbolId fuel l = .ok (r, l') → r = failR ∧ l'.error = true := by
  intro fuel
  induction fuel with
  | zero => intro l r l' h hm; exact absurd hm (by simp [symbolId])
  | succ n ih =>
    intro l r l' h hm
    unfold symbolId at hm
    cases hp : peekE l with
    | error e => rw [hp] at hm; exact absurd hm (by simp [Bind.bind, Except.bind])
    | ok c =>
      rw [hp] at hm
      simp only [Bind.bind, Except.bind] at hm
      split at hm
      · rw [appendL_err l h] at hm
        simp only [Bind.bind, Except.bind] at hm
        exact ih (advanceL l) r l' h hm
      · rw [finishL_err l .IDENTIFIER h] at hm
        simp only [pure, Except.pure, Except.ok.injEq, Prod.mk.injEq] at hm
        rcases hm with ⟨rfl, rfl⟩
        exact ⟨rfl, h⟩

theorem symbolKw_err : ∀ (fuel : Nat) (tbl : List (Bool × List Char × Token)) (j : Nat)
    (l : Lexer) (r : CRes) (l' : Lexer),
    l.error = true → symbolKw fuel tbl j l = .ok (r, l') → r = failR ∧ l'.error = true := by
  intro fuel
  induction fuel with
  | zero =>
    intro tbl j l r l' h hm
    exact absurd hm (by cases tbl <;> simp [symbolKw])
  | succ n ih =>
    intro tbl j l r l' h hm
    match tbl with
    | [] =>
      unfold symbolKw at hm
      exact symbolId_err n l r l' h hm
    | (pfx, name, tok) :: rest =>
      unfold symbolKw at hm
      split at hm
      · cases ha : acceptL l (name.get ⟨_, by assumption⟩) with
        | error e => rw [ha] at hm; exact absurd hm (by simp [Bind.bind, Except.bind])
        | ok bl =>
          obtain ⟨b1, l1⟩ := bl
          rw [ha] at hm
          simp only [Bind.bind, Except.bind] at hm
          have h1 : l1.error = true := acceptL_err l _ b1 l1 h ha
          split at hm
          · exact ih _ _ _ r l' h1 hm
          · exact ih _ _ _ r l' h1 hm
      · split at hm
        · split at hm
          · rw [finishL_err l tok h] at hm
            simp only [pure, Except.pure, Except.ok.injEq, Prod.mk.injEq] at hm
            rcases hm with ⟨rfl, rfl⟩
            exact ⟨rfl, h⟩
          · cases hp : peekE l with
            | error e => rw [hp] at hm; exact absurd hm (by simp [Bind.bind, Except.bind])
            | ok c =>
              rw [hp] at hm
              simp only [Bind.bind, Except.bind] at hm
              split at hm
              · rw [finishL_err l tok h] at hm
                simp only [pure, Except.pure, Except.ok.injEq, Prod.mk.injEq] at hm
                rcases hm with ⟨rfl, rfl⟩
                exact ⟨rfl, h⟩
              · exact symbolId_err n l r l' h hm
        · exact absurd hm (by simp)

theorem mlContent_err : ∀ (fuel : Nat) (l : Lexer) (l' : Lexer),
    l.error = true → mlContent fuel l = .ok l' → l'.error = true := by
  intro fuel
  induction fuel with
  | zero => intro l l' h hm; exact absurd hm (by simp [mlContent])
  | succ n ih =>
    intro l l' h hm
    unfold mlContent at hm
    split at hm
    · simp only [pure, Except.pure, Except.ok.injEq] at hm
      rw [← hm]; exact h
    · cases hp : peekE l with
      | error e => rw [hp] at hm; exact absurd hm (by simp [Bind.bind, Except.bind])
      | ok c =>
        rw [hp] at hm
        simp only [Bind.bind, Except.bind] at hm
        split at hm
        · simp only [pure, Except.pure, Except.ok.injEq] at hm
          rw [← hm]; exact h
        · rw [appendL_err l h] at hm
          simp only [Bind.bind, Except.bind] at hm
          exact ih (advanceL l) l' h hm

theorem mlQuotes_err : ∀ (fuel i : Nat) (l : Lexer) (n' : Nat) (l' : Lexer),
    l.error = true → mlQuotes fuel i l = .ok (n', l') → l'.error = true := by
  intro fuel
  induction fuel with
  | zero =>
    intro i l n' l' h hm
    simp only [mlQuotes, pure, Except.pure, Except.ok.injEq, Prod.mk.injEq] at hm
    rcases hm with ⟨-, rfl⟩
    exact h
  | succ n ih =>
    intro i l n' l' h hm
    unfold mlQuotes at hm
    split at hm
    · cases hp : peekE l with
      | error e => rw [hp] at hm; exact absurd hm (by simp [Bind.bind, Except.bind])
      | ok c =>
        rw [hp] at hm
        simp only [Bind.bind, Except.bind] at hm
        split at hm
        · rw [appendL_err l h] at hm
          simp only [Bind.bind, Except.bind] at hm
          exact ih _ (advanceL l) n' l' h hm
        · simp only [pure, Except.pure, Except.ok.injEq, Prod.mk.injEq] at hm
          rcases hm with ⟨-, rfl⟩
          exact h
    · simp only [pure, Except.pure, Except.ok.injEq, Prod.mk.injEq] at hm
      rcases hm with ⟨-, rfl⟩
      exact h

theorem multilineScan_err : ∀ (fuel : Nat) (l : Lexer) (r : CRes) (l' : Lexer),
    l.error = true → multilineScan fuel l = .ok (r, l') → r = failR ∧ l'.error = true := by
  intro fuel
  induction fuel with
  | zero => intro l r l' h hm; exact absurd hm (by simp [multilineScan])
  | succ n ih =>
    intro l r l' h hm
    unfold multilineScan at hm
    split at hm
    · simp only [pure, Except.pure, Except.ok.injEq, Prod.mk.injEq] at hm
      rcases hm with ⟨rfl, rfl⟩
      exact ⟨rfl, h⟩
    · cases hc : mlContent n l with
      | error e => rw [hc] at hm; exact absurd hm (by simp [Bind.bind, Except.bind])
      | ok l1 =>
        rw [hc] at hm
        simp only [Bind.bind, Except.bind] at hm
        have h1 : l1.error = true := mlContent_err n l l1 h hc
        cases hq : mlQuotes 3 0 l1 with
        | error e => rw [hq] at hm; exact absurd hm (by simp [Bind.bind, Except.bind])
        | ok il =>
          obtain ⟨i, l2⟩ := il
          rw [hq] at hm
          simp only [Bind.bind, Except.bind] at hm
          have h2 : l2.error = true := mlQuotes_err 3 0 l1 i l2 h1 hq
          split at hm
          · rw [finishL_err _ .MULTILINE_STRING (by simpa using h2)] at hm
            simp only [pure, Except.pure, Except.ok.injEq, Prod.mk.injEq] at hm
            rcases hm with ⟨rfl, rfl⟩
            exact ⟨rfl, by simpa using h2⟩
          · rw [appendL_err l2 h2] at hm
            simp only [Bind.bind, Except.bind] at hm
            exact ih (advanceL l2) r l' h2 hm

theorem sqContent_err : ∀ (fuel : Nat) (l : Lexer) (l' : Lexer),
    l.error = true → sqContent fuel l = .ok l' → l'.error = true := by
  intro fuel
  induction fuel with
  | zero => intro l l' h hm; exact absurd hm (by simp [sqContent])
  | succ n ih =>
    intro l l' h hm
    unfold sqContent at hm
    split at hm
    · simp only [pure, Except.pure, Except.ok.injEq] at hm
      rw [← hm]; exact h
    · cases hp : peekE l with
      | error e => rw [hp] at hm; exact absurd hm (by simp [Bind.bind, Except.bind])
      | ok c =>
        rw [hp] at hm
        simp only [Bind.bind, Except.bind] at hm
        split at hm
        · simp only [pure, Except.pure, Except.ok.injEq] at hm
          rw [← hm]; exact h
        · rw [appendL_err l h] at hm
          simp only [Bind.bind, Except.bind] at hm
          exact ih (advanceL l) l' h hm

theorem stringScan_err (fuel : Nat) (l : Lexer) (r : CRes) (l' : Lexer)
    (h : l.error = true) (hm : stringScan fuel l = .ok (r, l')) :
    r = failR ∧ l'.error = true := by
  unfold stringScan at hm
  cases h1 : matchC l qch with
  | error e => rw [h1] at hm; exact absurd hm (by simp [Bind.bind, Except.bind])
  | ok bl1 =>
    obtain ⟨b1, l1⟩ := bl1
    rw [h1] at hm
    simp only [Bind.bind, Except.bind] at hm
    have he1 : l1.error = true := matchC_err l qch b1 l1 h h1
    cases h2 : matchC l1 qch with
    | error e => rw [h2] at hm; exact absurd hm (by simp [Bind.bind, Except.bind])
    | ok bl2 =>
      obtain ⟨b2, l2⟩ := bl2
      rw [h2] at hm
      simp only [Bind.bind, Except.bind] at hm
      have he2 : l2.error = true := matchC_err l1 qch b2 l2 he1 h2
      split at hm
      · cases h3 : matchC l2 qch with
        | error e => rw [h3] at hm; exact absurd hm (by simp [Bind.bind, Except.bind])
        | ok bl3 =>
          obtain ⟨b3, l3⟩ := bl3
          rw [h3] at hm
          simp only [Bind.bind, Except.bind] at hm
          have he3 : l3.error = true := matchC_err l2 qch b3 l3 he2 h3
          split at hm
          · exact multilineScan_err fuel l3 r l' he3 hm
          · rw [finishL_err l3 .STRING he3] at hm
            simp only [pure, Except.pure, Except.ok.injEq, Prod.mk.injEq] at hm
            rcases hm with ⟨rfl, rfl⟩
            exact ⟨rfl, he3⟩
      · cases h4 : sqContent fuel l2 with
        | error e => rw [h4] at hm; exact absurd hm (by simp [Bind.bind, Except.bind])
        | ok l3 =>
          rw [h4] at hm
          simp only [Bind.bind, Except.bind] at hm
          have he3 : l3.error = true := sqContent_err fuel l2 l3 he2 h4
          cases h5 : matchC l3 qch with
          | error e => rw [h5] at hm; exact absurd hm (by simp [Bind.bind, Except.bind])
          | ok bl4 =>
            obtain ⟨b4, l4⟩ := bl4
            rw [h5] at hm
            simp only [Bind.bind, Except.bind] at hm
            have he4 : l4.error = true := matchC_err l3 qch b4 l4 he3 h5
            split at hm
            · rw [finishL_err l4 .STRING he4] at hm
              simp only [pure, Except.pure, Except.ok.injEq, Prod.mk.injEq] at hm
              rcases hm with ⟨rfl, rfl⟩
              exact ⟨rfl, he4⟩
            · simp only [pure, Except.pure, Except.ok.injEq, Prod.mk.injEq] at hm
              rcases hm with ⟨rfl, rfl⟩
              exact ⟨rfl, he4⟩

theorem numLoop_err : ∀ (fuel : Nat) (cond : Char → Bool) (l : Lexer) (l' : Lexer),
    l.error = true → numLoop fuel cond l = .ok l' → l'.error = true := by
  intro fuel
  induction fuel with
  | zero => intro cond l l' h hm; exact absurd hm (by simp [numLoop])
  | succ n ih =>
    intro cond l l' h hm
    unfold numLoop at hm
    cases hp : peekE l with
    | error e => rw [hp] at hm; exact absurd hm (by simp [Bind.bind, Except.bind])
    | ok c =>
      rw [hp] at hm
      simp only [Bind.bind, Except.bind] at hm
      split at hm
      · rw [appendL_err l h] at hm
        simp only [Bind.bind, Except.bind] at hm
        exact ih cond (advanceL l) l' h hm
      · simp only [pure, Except.pure, Except.ok.injEq] at hm
        rw [← hm]; exact h

theorem numberTail_err (fuel : Nat) (cond : Char → Bool) (tok : Token)
    (l : Lexer) (r : CRes) (l' : Lexer)
    (h : l.error = true) (hm : numberTail fuel cond tok l = .ok (r, l')) :
    r = failR ∧ l'.error = true := by
  unfold numberTail at hm
  cases hl : numLoop fuel cond l with
  | error e => rw [hl] at hm; exact absurd hm (by simp [Bind.bind, Except.bind])
  | ok l1 =>
    rw [hl] at hm
    simp only [Bind.bind, Except.bind] at hm
    have h1 : l1.error = true := numLoop_err fuel cond l l1 h hl
    split at hm
    · rw [finishL_err l1 tok h1] at hm
      simp only [pure, Except.pure, Except.ok.injEq, Prod.mk.injEq] at hm
      rcases hm with ⟨rfl, rfl⟩
      exact ⟨rfl, h1⟩
    · cases hp : peekE l1 with
      | error e => rw [hp] at hm; exact absurd hm (by simp [Bind.bind, Except.bind])
      | ok c =>
        rw [hp] at hm
        simp only [Bind.bind, Except.bind] at hm
        split at hm
        · rw [finishL_err l1 tok h1] at hm
          simp only [pure, Except.pure, Except.ok.injEq, Prod.mk.injEq] at hm
          rcases hm with ⟨rfl, rfl⟩
          exact ⟨rfl, h1⟩
        · simp only [pure, Except.pure, Except.ok.injEq, Prod.mk.injEq] at hm
          rcases hm with ⟨rfl, rfl⟩
          exact ⟨rfl, h1⟩

theorem numberBase_err (fuel : Nat) (cond : Char → Bool) (tok : Token)
    (l : Lexer) (r : CRes) (l' : Lexer)
    (h : l.error = true) (hm : numberBase fuel cond tok l = .ok (r, l')) :
    r = failR ∧ l'.error = true := by
  simp only [numberBase] at hm
  cases hp : peekE (advanceL l) with
  | error e => rw [hp] at hm; exact absurd hm (by simp [Bind.bind, Except.bind])
  | ok c2 =>
    rw [hp] at hm
    simp only [Bind.bind, Except.bind] at hm
    split at hm
    · exact numberTail_err fuel cond tok _ r l' (by simpa [advanceL] using h) hm
    · simp only [pure, Except.pure, Except.ok.injEq, Prod.mk.injEq] at hm
      rcases hm with ⟨rfl, rfl⟩
      exact ⟨rfl, by simpa [advanceL] using h⟩

theorem numberScan_err (fuel : Nat) (l : Lexer) (r : CRes) (l' : Lexer)
    (h : l.error = true) (hm : numberScan fuel l = .ok (r, l')) :
    r = failR ∧ l'.error = true := by
  unfold numberScan at hm
  cases ha : acceptL l '0' with
  | error e => rw [ha] at hm; exact absurd hm (by simp [Bind.bind, Except.bind])
  | ok bl =>
    obtain ⟨b0, l1⟩ := bl
    rw [ha] at hm
    simp only [Bind.bind, Except.bind] at hm
    have h1 : l1.error = true := acceptL_err l '0' b0 l1 h ha
    split at hm
    · cases hp : peekE l1 with
      | error e => rw [hp] at hm; exact absurd hm (by simp [Bind.bind, Except.bind])
      | ok c =>
        rw [hp] at hm
        simp only [Bind.bind, Except.bind] at hm
        split at hm
        · exact numberBase_err fuel _ _ l1 r l' h1 hm
        · split at hm
          · exact numberBase_err fuel _ _ l1 r l' h1 hm
          · split at hm
            · exact numberBase_err fuel _ _ l1 r l' h1 hm
            · exact numberTail_err fuel _ _ _ r l' h1 hm
    · exact numberTail_err fuel _ _ _ r l' h1 hm

theorem maybeEq_err (l : Lexer) (t1 t2 : Token) (r : CRes) (l' : Lexer)
    (h : l.error = true) (hm : maybeEq l t1 t2 = .ok (r, l')) :
    r = failR ∧ l'.error = true := by
  unfold maybeEq at hm
  rw [appendL_err l h] at hm
  simp only [Bind.bind, Except.bind] at hm
  cases ha : acceptL (advanceL l) '=' with
  | error e => rw [ha] at hm; exact absurd hm (by simp [Bind.bind, Except.bind])
  | ok bl =>
    obtain ⟨b, l1⟩ := bl
    rw [ha] at hm
    simp only [Bind.bind, Except.bind] at hm
    have h1 : l1.error = true := acceptL_err (advanceL l) '=' b l1 (by simpa [advanceL] using h) ha
    split at hm <;>
      (rw [finishL_err l1 _ h1] at hm;
       simp only [pure, Except.pure, Except.ok.injEq, Prod.mk.injEq] at hm;
       rcases hm with ⟨rfl, rfl⟩;
       exact ⟨rfl, h1⟩)

theorem appendFinish_err (l : Lexer) (t : Token) (r : CRes) (l' : Lexer)
    (h : l.error = true) (hm : appendFinish l t = .ok (r, l')) :
    r = failR ∧ l'.error = true := by
  unfold appendFinish at hm
  rw [appendL_err l h] at hm
  simp only [Bind.bind, Except.bind] at hm
  rw [finishL_err _ t (by simpa [advanceL] using h)] at hm
  simp only [pure, Except.pure, Except.ok.injEq, Prod.mk.injEq] at hm
  rcases hm with ⟨rfl, rfl⟩
  exact ⟨rfl, by simpa [advanceL] using h⟩

theorem skipWs_error : ∀ (fuel : Nat) (l l' : Lexer),
    skipWs fuel l = .ok l' → l'.error = l.error := by
  intro fuel
  induction fuel with
  | zero => intro l l' hm; exact absurd hm (by simp [skipWs])
  | succ n ih =>
    intro l l' hm
    unfold skipWs at hm
    split at hm
    · simp only [pure, Except.pure, Except.ok.injEq] at hm
      rw [← hm]
    · cases hp : peekE l with
      | error e => rw [hp] at hm; exact absurd hm (by simp [Bind.bind, Except.bind])
      | ok c =>
        rw [hp] at hm
        simp only [Bind.bind, Except.bind] at hm
        split at hm
        · exact ih (advanceL l) l' hm
        · simp only [pure, Except.pure, Except.ok.injEq] at hm
          rw [← hm]

theorem skipComment_error : ∀ (fuel : Nat) (l l' : Lexer),
    skipComment fuel l = .ok l' → l'.error = l.error := by
  intro fuel
  induction fuel with
  | zero => intro l l' hm; exact absurd hm (by simp [skipComment])
  | succ n ih =>
    intro l l' hm
    unfold skipComment at hm
    split at hm
    · simp only [pure, Except.pure, Except.ok.injEq] at hm
      rw [← hm]
    · cases hp : peekE l with
      | error e => rw [hp] at hm; exact absurd hm (by simp [Bind.bind, Except.bind])
      | ok c =>
        rw [hp] at hm
        simp only [Bind.bind, Except.bind] at hm
        split at hm
        · simp only [pure, Except.pure, Except.ok.injEq] at hm
          rw [← hm]
        · exact ih (advanceL l) l' hm

theorem dispatch_err (fuel : Nat) (l : Lexer) (r : CRes) (l' : Lexer)
    (h : l.error = true) (hm : dispatch fuel l = .ok (r, l')) :
    r = failR ∧ l'.error = true := by
  unfold dispatch at hm
  cases hp : peekE l with
  | error e => rw [hp] at hm; exact absurd hm (by simp [Bind.bind, Except.bind])
  | ok c =>
    rw [hp] at hm
    simp only [Bind.bind, Except.bind] at hm
    split at hm
    · exact symbolKw_err fuel keywords 0 l r l' h hm
    · split at hm
      · exact stringScan_err fuel l r l' h hm
      · split at hm
        · exact numberScan_err fuel l r l' h hm
        · split at hm
          · exact appendFinish_err l _ r l' h hm
          · split at hm
            · exact maybeEq_err l _ _ r l' h hm
            · simp only [pure, Except.pure, Except.ok.injEq, Prod.mk.injEq] at hm
              rcases hm with ⟨rfl, rfl⟩
              exact ⟨rfl, h⟩

theorem doLexGo_err : ∀ (fuel : Nat) (l : Lexer) (r : CRes) (l' : Lexer),
    l.error = true → doLexGo fuel l = .ok (r, l') → r = failR ∧ l'.error = true := by
  intro fuel
  induction fuel with
  | zero => intro l r l' h hm; exact absurd hm (by simp [doLexGo])
  | succ n ih =>
    intro l r l' h hm
    unfold doLexGo at hm
    cases hw : skipWs n l with
    | error e => rw [hw] at hm; exact absurd hm (by simp [Bind.bind, Except.bind])
    | ok l1 =>
      rw [hw] at hm
      simp only [Bind.bind, Except.bind] at hm
      have h1 : l1.error = true := by rw [skipWs_error n l l1 hw]; exact h
      split at hm
      · rw [finishL_err l1 .END h1] at hm
        simp only [pure, Except.pure, Except.ok.injEq, Prod.mk.injEq] at hm
        rcases hm with ⟨rfl, rfl⟩
        exact ⟨rfl, h1⟩
      · cases hb : matchC l1 '\\' with
        | error e => rw [hb] at hm; exact absurd hm (by simp [Bind.bind, Except.bind])
        | ok bl =>
          obtain ⟨bs, l2⟩ := bl
          rw [hb] at hm
          simp only [Bind.bind, Except.bind] at hm
          have h2 : l2.error = true := matchC_err l1 '\\' bs l2 h1 hb
          split at hm
          · exact ih l2 r l' h2 hm
          · cases hp : peekE l2 with
            | error e => rw [hp] at hm; exact absurd hm (by simp [Bind.bind, Except.bind])
            | ok c =>
              rw [hp] at hm
              simp only [Bind.bind, Except.bind] at hm
              split at hm
              · cases hc : skipComment n l2 with
                | error e => rw [hc] at hm; exact absurd hm (by simp [Bind.bind, Except.bind])
                | ok l3 =>
                  rw [hc] at hm
                  simp only [Bind.bind, Except.bind] at hm
                  have h3 : l3.error = true := by
                    rw [skipComment_error n l2 l3 hc]; exact h2
                  exact ih l3 r l' h3 hm
              · exact dispatch_err n l2 r l' h2 hm

theorem doLex_err (fuel : Nat) (l : Lexer) (r : CRes) (l' : Lexer)
    (h : l.error = true) (hm : doLex fuel l = .ok (r, l')) :
    r = failR ∧ l'.error = true := by
  unfold doLex at hm
  exact doLexGo_err fuel _ r l' (by simpa using h) hm

/-! ## Symbolic runs of the numeric scanner (lexer.c `number`)

These lemmas run `number` on an arbitrary tokenizer state whose remaining
input has a known shape, assuming only that the lexeme buffer has spare
capacity for the token (so `grow` never reallocates). -/

theorem pos_lt_of_drop_cons (l : Lexer) (c : Char) (t : List Char)
    (hd : l.input.drop l.pos = c :: t) : l.pos < l.input.length := by
  by_contra hge
  rw [List.drop_eq_nil_of_le (Nat.le_of_not_lt hge)] at hd
  exact absurd hd (by simp)

theorem peekE_cons (l : Lexer) (c : Char) (t : List Char)
    (hd : l.input.drop l.pos = c :: t) : peekE l = .ok c := by
  have hlt : l.pos < l.input.length := pos_lt_of_drop_cons l c t hd
  unfold peekE
  rw [dif_pos hlt]
  rw [List.drop_eq_getElem_cons hlt] at hd
  injection hd with h1 h2
  simp [List.get_eq_getElem, h1]

theorem peekE_end (l : Lexer) (hp : l.pos = l.input.length) :
    peekE l = .ok nulChar := by
  unfold peekE
  rw [dif_neg (by omega), if_pos hp]

theorem drop_succ_of_drop_cons (l : Lexer) (c : Char) (t : List Char)
    (hd : l.input.drop l.pos = c :: t) : l.input.drop (l.pos + 1) = t := by
  have hlt : l.pos < l.input.length := pos_lt_of_drop_cons l c t hd
  rw [List.drop_eq_getElem_cons hlt] at hd
  injection hd with h1 h2

theorem isEnd_false_of_drop_cons (l : Lexer) (c : Char) (t : List Char)
    (hd : l.input.drop l.pos = c :: t) : isEnd l = false := by
  have := pos_lt_of_drop_cons l c t hd
  simp [isEnd]
  omega

theorem grow_noRealloc (l : Lexer) (he : l.error = false)
    (hcap : l.lexeme.length < l.lexemeMax) : grow l = (true, l) := by
  unfold grow
  rw [if_neg (by simp [he]), if_neg (by omega)]

theorem appendL_run (l : Lexer) (c : Char) (t : List Char)
    (he : l.error = false) (hcap : l.lexeme.length < l.lexemeMax)
    (hd : l.input.drop l.pos = c :: t) :
    appendL l = .ok { l with lexeme := l.lexeme ++ [c], pos := l.pos + 1 } := by
  simp [appendL, grow_noRealloc l he hcap, peekE_cons l c t hd,
    Bind.bind, Except.bind, pure, Except.pure, advanceL]

theorem finishL_run (l : Lexer) (t : Token) (he : l.error = false)
    (hcap : l.lexeme.length < l.lexemeMax) : finishL l t = (.succ t, l) := by
  unfold finishL
  rw [grow_noRealloc l he hcap]
  rfl

theorem acceptL_yes (l : Lexer) (c : Char) (t : List Char)
    (he : l.error = false) (hcap : l.lexeme.length < l.lexemeMax)
    (hd : l.input.drop l.pos = c :: t) :
    acceptL l c = .ok (true, { l with lexeme := l.lexeme ++ [c], pos := l.pos + 1 }) := by
  unfold acceptL
  rw [peekE_cons l c t hd]
  simp only [Bind.bind, Except.bind, if_pos rfl]
  rw [appendL_run l c t he hcap hd]
  simp [Bind.bind, Except.bind, pure, Except.pure]

theorem acceptL_no (l : Lexer) (c c' : Char) (t : List Char)
    (hd : l.input.drop l.pos = c :: t) (hne : c ≠ c') :
    acceptL l c' = .ok (false, l) := by
  unfold acceptL
  rw [peekE_cons l c t hd]
  simp [Bind.bind, Except.bind, pure, Except.pure, hne]

theorem numLoop_run : ∀ (ds : List Char) (fuel : Nat) (cond : Char → Bool) (l : Lexer)
    (rest : List Char),
    l.error = false →
    l.input.drop l.pos = ds ++ rest →
    l.lexeme.length + ds.length < l.lexemeMax →
    (∀ d ∈ ds, cond d = true) →
    (∀ c t, rest = c :: t → cond c = false) →
    cond nulChar = false →
    l.pos ≤ l.input.length →
    ds.length < fuel →
    numLoop fuel cond l =
      .ok { l with lexeme := l.lexeme ++ ds, pos := l.pos + ds.length } := by
  intro ds
  induction ds with
  | nil =>
    intro fuel cond l rest he hd hcap hall hstop hnul hpos hfuel
    cases fuel with
    | zero => exact absurd hfuel (by simp)
    | succ n =>
      unfold numLoop
      cases hr : rest with
      | nil =>
        rw [hr] at hd
        simp only [List.nil_append] at hd
        have hple : l.input.length ≤ l.pos := List.drop_eq_nil_iff.mp hd
        rw [peekE_end l (by omega)]
        simp [Bind.bind, Except.bind, hnul, pure, Except.pure]
      | cons c t =>
        rw [hr] at hd hstop
        simp only [List.nil_append] at hd
        rw [peekE_cons l c t hd]
        simp [Bind.bind, Except.bind, hstop c t rfl, pure, Except.pure]
  | cons d dt ih =>
    intro fuel cond l rest he hd hcap hall hstop hnul hpos hfuel
    cases fuel with
    | zero => exact absurd hfuel (by simp)
    | succ n =>
      unfold numLoop
      simp only [List.cons_append] at hd
      rw [peekE_cons l d (dt ++ rest) hd]
      simp only [Bind.bind, Except.bind]
      rw [if_pos (hall d (by simp))]
      rw [appendL_run l d (dt ++ rest) he (by simp at hcap; omega) hd]
      simp only [Bind.bind, Except.bind]
      rw [ih n cond _ rest (by simp [he])
        (by simpa using drop_succ_of_drop_cons l d (dt ++ rest) hd)
        (by simp; simp at hcap; omega)
        (fun x hx => hall x (by simp [hx]))
        hstop hnul
        (by have := pos_lt_of_drop_cons l d (dt ++ rest) hd; simp; omega)
        (by simp at hfuel; omega)]
      simp [List.append_assoc, Nat.add_assoc, Nat.add_comm 1 dt.length]

theorem drop_after_run (l : Lexer) (ds rest : List Char)
    (hd : l.input.drop l.pos = ds ++ rest) :
    l.input.drop (l.pos + ds.length) = rest := by
  rw [← List.drop_drop, hd, List.drop_left]

theorem len_after_run (l : Lexer) (ds : List Char)
    (hd : l.input.drop l.pos = ds ++ []) (hpos : l.pos ≤ l.input.length) :
    l.pos + ds.length = l.input.length := by
  have h1 := congrArg List.length hd
  rw [List.length_drop] at h1
  simp at h1
  omega

theorem numberTail_ok (fuel : Nat) (cond : Char → Bool) (tok : Token) (l : Lexer)
    (ds rest : List Char)
    (he : l.error = false)
    (hd : l.input.drop l.pos = ds ++ rest)
    (hcap : l.lexeme.length + ds.length + 1 ≤ l.lexemeMax)
    (hall : ∀ d ∈ ds, cond d = true)
    (hstop : ∀ c t, rest = c :: t → cond c = false)
    (hnul : cond nulChar = false)
    (hpos : l.pos ≤ l.input.length)
    (hbound : rest = [] ∨ ∃ c t, rest = c :: t ∧ (isSpaceC c = true ∨ isPunctC c = true))
    (hfuel : ds.length < fuel) :
    numberTail fuel cond tok l =
      .ok (.succ tok, { l with lexeme := l.lexeme ++ ds, pos := l.pos + ds.length }) := by
  unfold numberTail
  rw [numLoop_run ds fuel cond l rest he hd (by omega) hall hstop hnul hpos hfuel]
  simp only [Bind.bind, Except.bind]
  rcases hbound with hb | ⟨c, t, hb, hsp⟩
  · rw [hb] at hd
    have hend : l.pos + ds.length = l.input.length := len_after_run l ds hd hpos
    rw [if_pos (by simp [isEnd, hend])]
    rw [finishL_run _ tok (by simp [he]) (by simp; omega)]
    rfl
  · subst hb
    have hd2 : l.input.drop (l.pos + ds.length) = c :: t := drop_after_run l ds _ hd
    have hd2' : ({ l with lexeme := l.lexeme ++ ds, pos := l.pos + ds.length } : Lexer).input.drop
        ({ l with lexeme := l.lexeme ++ ds, pos := l.pos + ds.length } : Lexer).pos = c :: t := by
      simpa using hd2
    rw [if_neg (by simp [isEnd_false_of_drop_cons _ c t hd2'] )]
    rw [peekE_cons _ c t hd2']
    simp only [Bind.bind, Except.bind]
    rw [if_pos (by rcases hsp with h | h <;> simp [h])]
    rw [finishL_run _ tok (by simp [he]) (by simp; omega)]
    rfl

theorem pos_le_of_drop_append_cons (l : Lexer) (ds : List Char) (c : Char) (t : List Char)
    (hd : l.input.drop l.pos = ds ++ c :: t) : l.pos ≤ l.input.length := by
  by_contra hge
  rw [List.drop_eq_nil_of_le (by omega)] at hd
  exact absurd hd.symm (by simp)

theorem numberTail_fail (fuel : Nat) (cond : Char → Bool) (tok : Token) (l : Lexer)
    (ds : List Char) (c : Char) (t : List Char)
    (he : l.error = false)
    (hd : l.input.drop l.pos = ds ++ c :: t)
    (hcap : l.lexeme.length + ds.length + 1 ≤ l.lexemeMax)
    (hall : ∀ d ∈ ds, cond d = true)
    (hnul : cond nulChar = false)
    (hc : cond c = false)
    (hsp : isSpaceC c = false) (hpu : isPunctC c = false)
    (hfuel : ds.length < fuel) :
    numberTail fuel cond tok l =
      .ok (failR, { l with lexeme := l.lexeme ++ ds, pos := l.pos + ds.length }) := by
  unfold numberTail
  rw [numLoop_run ds fuel cond l (c :: t) he hd (by omega) hall
    (by intro c' t' h; injection h with h1 h2; rw [← h1]; exact hc)
    hnul (pos_le_of_drop_append_cons l ds c t hd) hfuel]
  simp only [Bind.bind, Except.bind]
  have hd2 : l.input.drop (l.pos + ds.length) = c :: t := drop_after_run l ds _ hd
  have hd2' : ({ l with lexeme := l.lexeme ++ ds, pos := l.pos + ds.length } : Lexer).input.drop
      ({ l with lexeme := l.lexeme ++ ds, pos := l.pos + ds.length } : Lexer).pos = c :: t := by
    simpa using hd2
  rw [if_neg (by simp [isEnd_false_of_drop_cons _ c t hd2'])]
  rw [peekE_cons _ c t hd2']
  simp [Bind.bind, Except.bind, hsp, hpu, pure, Except.pure]

theorem boundary_class (c : Char) (h : isSpaceC c = true ∨ isPunctC c = true) :
    isDigitC c = false ∧ isXDigitC c = false ∧ c ≠ 'b' ∧ c ≠ 'o' ∧ c ≠ 'x' := by
  rcases h with h | h <;> simp [isSpaceC, isPunctC] at h
  · rcases h with (((((rfl | rfl) | rfl) | rfl) | rfl) | rfl) <;> decide
  · rcases h with ((((((((((((((((((rfl | rfl) | rfl) | rfl) | rfl) | rfl) | rfl) | rfl) | rfl) | rfl) | rfl) | rfl) | rfl) | rfl) | rfl) | rfl) | rfl) | rfl) | rfl) <;> decide

theorem digit_not_marker (c : Char) (h : isDigitC c = true) :
    c ≠ 'b' ∧ c ≠ 'o' ∧ c ≠ 'x' := by
  refine ⟨?_, ?_, ?_⟩ <;> (intro he; subst he; exact absurd h (by decide))

/-- A base prefix not followed by a valid digit for the base makes the
`number` scan fail, for any surrounding tokenizer state. -/
theorem numberScan_bin_nodigit (fuel : Nat) (l : Lexer) (rest : List Char)
    (he : l.error = false) (hcap : l.lexeme.length + 1 < l.lexemeMax)
    (hd : l.input.drop l.pos = '0' :: 'b' :: rest)
    (hstop : ∀ c t, rest = c :: t → isBDigitC c = false) :
    numberScan fuel l =
      .ok (failR, { l with lexeme := l.lexeme ++ ['0'], pos := l.pos + 2 }) := by
  unfold numberScan
  rw [acceptL_yes l '0' ('b' :: rest) he (by omega) hd]
  simp only [Bind.bind, Except.bind, reduceIte]
  rw [peekE_cons _ 'b' rest (by simpa using drop_succ_of_drop_cons l '0' _ hd)]
  simp only [Bind.bind, Except.bind]
  rw [if_pos trivial]
  simp only [numberBase, advanceL]
  have hd2 : l.input.drop (l.pos + 1 + 1) = rest := by
    have h1 := drop_succ_of_drop_cons l '0' _ hd
    exact drop_succ_of_drop_cons { l with pos := l.pos + 1 } 'b' rest (by simpa using h1)
  cases hr : rest with
  | nil =>
    rw [hr] at hd2
    have hlen : l.pos + 1 + 1 = l.input.length := by
      have h1 := drop_succ_of_drop_cons l '0' _ hd
      have h2 := congrArg List.length h1
      rw [List.length_drop] at h2
      have := pos_lt_of_drop_cons l '0' _ hd
      rw [hr] at h2
      simp at h2
      omega
    rw [peekE_end _ (by simpa using hlen)]
    simp only [Bind.bind, Except.bind]
    rw [if_neg (by decide)]
    rfl
  | cons c t =>
    rw [hr] at hd2 hstop
    rw [peekE_cons _ c t (by simpa using hd2)]
    simp only [Bind.bind, Except.bind]
    rw [if_neg (by simp [hstop c t rfl])]
    rfl

theorem numberScan_oct_nodigit (fuel : Nat) (l : Lexer) (rest : List Char)
    (he : l.error = false) (hcap : l.lexeme.length + 1 < l.lexemeMax)
    (hd : l.input.drop l.pos = '0' :: 'o' :: rest)
    (hstop : ∀ c t, rest = c :: t → isODigitC c = false) :
    numberScan fuel l =
      .ok (failR, { l with lexeme := l.lexeme ++ ['0'], pos := l.pos + 2 }) := by
  unfold numberScan
  rw [acceptL_yes l '0' ('o' :: rest) he (by omega) hd]
  simp only [Bind.bind, Except.bind, reduceIte]
  rw [peekE_cons _ 'o' rest (by simpa using drop_succ_of_drop_cons l '0' _ hd)]
  simp only [Bind.bind, Except.bind]
  rw [if_neg (show ¬(('o' : Char) = 'b') by decide)]
  rw [if_pos trivial]
  simp only [numberBase, advanceL]
  have hd2 : l.input.drop (l.pos + 1 + 1) = rest := by
    have h1 := drop_succ_of_drop_cons l '0' _ hd
    exact drop_succ_of_drop_cons { l with pos := l.pos + 1 } 'o' rest (by simpa using h1)
  cases hr : rest with
  | nil =>
    rw [hr] at hd2
    have hlen : l.pos + 1 + 1 = l.input.length := by
      have h1 := drop_succ_of_drop_cons l '0' _ hd
      have h2 := congrArg List.length h1
      rw [List.length_drop] at h2
      have := pos_lt_of_drop_cons l '0' _ hd
      rw [hr] at h2
      simp at h2
      omega
    rw [peekE_end _ (by simpa using hlen)]
    simp only [Bind.bind, Except.bind]
    rw [if_neg (by decide)]
    rfl
  | cons c t =>
    rw [hr] at hd2 hstop
    rw [peekE_cons _ c t (by simpa using hd2)]
    simp only [Bind.bind, Except.bind]
    rw [if_neg (by simp [hstop c t rfl])]
    rfl

theorem numberScan_hex_nodigit (fuel : Nat) (l : Lexer) (rest : List Char)
    (he : l.error = false) (hcap : l.lexeme.length + 1 < l.lexemeMax)
    (hd : l.input.drop l.pos = '0' :: 'x' :: rest)
    (hstop : ∀ c t, rest = c :: t → isXDigitC c = false) :
    numberScan fuel l =
      .ok (failR, { l with lexeme := l.lexeme ++ ['0'], pos := l.pos + 2 }) := by
  unfold numberScan
  rw [acceptL_yes l '0' ('x' :: rest) he (by omega) hd]
  simp only [Bind.bind, Except.bind, reduceIte]
  rw [peekE_cons _ 'x' rest (by simpa using drop_succ_of_drop_cons l '0' _ hd)]
  simp only [Bind.bind, Except.bind]
  rw [if_neg (show ¬(('x' : Char) = 'b') by decide)]
  rw [if_neg (show ¬(('x' : Char) = 'o') by decide)]
  rw [if_pos trivial]
  simp only [numberBase, advanceL]
  have hd2 : l.input.drop (l.pos + 1 + 1) = rest := by
    have h1 := drop_succ_of_drop_cons l '0' _ hd
    exact drop_succ_of_drop_cons { l with pos := l.pos + 1 } 'x' rest (by simpa using h1)
  cases hr : rest with
  | nil =>
    rw [hr] at hd2
    have hlen : l.pos + 1 + 1 = l.input.length := by
      have h1 := drop_succ_of_drop_cons l '0' _ hd
      have h2 := congrArg List.length h1
      rw [List.length_drop] at h2
      have := pos_lt_of_drop_cons l '0' _ hd
      rw [hr] at h2
      simp at h2
      omega
    rw [peekE_end _ (by simpa using hlen)]
    simp only [Bind.bind, Except.bind]
    rw [if_neg (by decide)]
    rfl
  | cons c t =>
    rw [hr] at hd2 hstop
    rw [peekE_cons _ c t (by simpa using hd2)]
    simp only [Bind.bind, Except.bind]
    rw [if_neg (by simp [hstop c t rfl])]
    rfl

/-- Position bound extracted from a non-empty remaining input. -/
theorem drop_cons_lt (xs : List Char) (n : Nat) (c : Char) (t : List Char)
    (h : xs.drop n = c :: t) : n < xs.length := by
  by_contra hge
  rw [List.drop_eq_nil_of_le (Nat.le_of_not_lt hge)] at h
  exact absurd h (by simp)

/-- A scanned decimal digit run immediately followed by a character that
is neither end-of-input, whitespace nor punctuation makes the `number`
scan fail, for any surrounding tokenizer state. -/
theorem numberScan_dec_fail (fuel : Nat) (l : Lexer) (ds : List Char) (c : Char)
    (t : List Char)
    (he : l.error = false)
    (hcap : l.lexeme.length + ds.length + 1 ≤ l.lexemeMax)
    (hd : l.input.drop l.pos = ds ++ c :: t)
    (hne : ds ≠ [])
    (hall : ∀ d ∈ ds, isDigitC d = true)
    (hc : isDigitC c = false) (hsp : isSpaceC c = false) (hpu : isPunctC c = false)
    (hmk : ds = ['0'] → c ≠ 'b' ∧ c ≠ 'o' ∧ c ≠ 'x')
    (hfuel : ds.length < fuel) :
    numberScan fuel l =
      .ok (failR, { l with lexeme := l.lexeme ++ ds, pos := l.pos + ds.length }) := by
  unfold numberScan
  cases ds with
  | nil => exact absurd rfl hne
  | cons d0 dt =>
    by_cases h0 : d0 = '0'
    · subst h0
      rw [acceptL_yes l '0' (dt ++ c :: t) he (by simp at hcap; omega) (by simpa using hd)]
      simp only [Bind.bind, Except.bind, reduceIte]
      cases dt with
      | nil =>
        rw [peekE_cons _ c t
          (by simpa using drop_succ_of_drop_cons l '0' _ (by simpa using hd))]
        simp only [Bind.bind, Except.bind]
        have hm := hmk rfl
        rw [if_neg (by simp [hm.1]), if_neg (by simp [hm.2.1]), if_neg (by simp [hm.2.2])]
        rw [numberTail_fail fuel isDigitC .DEC_NUMBER _ [] c t (by simp [he])
          (by simpa using drop_succ_of_drop_cons l '0' _ (by simpa using hd))
          (by simp; simp at hcap; omega) (by simp) (by decide) hc hsp hpu
          (by simp at hfuel ⊢; omega)]
        simp
      | cons d1 dt' =>
        rw [peekE_cons _ d1 (dt' ++ c :: t)
          (by simpa using drop_succ_of_drop_cons l '0' _ (by simpa using hd))]
        simp only [Bind.bind, Except.bind]
        have hd1 : isDigitC d1 = true := hall d1 (by simp)
        obtain ⟨hb, ho, hx⟩ := digit_not_marker d1 hd1
        rw [if_neg (by simp [hb]), if_neg (by simp [ho]), if_neg (by simp [hx])]
        rw [numberTail_fail fuel isDigitC .DEC_NUMBER _ (d1 :: dt') c t (by simp [he])
          (by simpa using drop_succ_of_drop_cons l '0' _ (by simpa using hd))
          (by simp; simp at hcap; omega)
          (fun d hdm => hall d (List.mem_cons_of_mem _ hdm))
          (by decide) hc hsp hpu (by simp at hfuel ⊢; omega)]
        simp [List.append_assoc, List.length_cons, Nat.add_assoc, Nat.add_comm,
          Nat.add_left_comm]
    · rw [acceptL_no l d0 '0' (dt ++ c :: t) (by simpa using hd) h0]
      simp only [Bind.bind, Except.bind]
      rw [if_neg (show ¬(false = true) by decide)]
      rw [numberTail_fail fuel isDigitC .DEC_NUMBER l (d0 :: dt) c t he hd
        hcap hall (by decide) hc hsp hpu hfuel]

/-- A successful scan of a hexadecimal literal records exactly the digit
run as the lexeme: the `0` and the `x` marker are excluded. -/
theorem numberScan_hex_lexeme (fuel : Nat) (l : Lexer) (ds rest : List Char)
    (he : l.error = false)
    (hcap : l.lexeme.length + ds.length + 2 ≤ l.lexemeMax)
    (hd : l.input.drop l.pos = '0' :: 'x' :: (ds ++ rest))
    (hne : ds ≠ [])
    (hall : ∀ d ∈ ds, isXDigitC d = true)
    (hbound : rest = [] ∨ ∃ c t, rest = c :: t ∧ (isSpaceC c = true ∨ isPunctC c = true))
    (hfuel : ds.length < fuel) :
    numberScan fuel l =
      .ok (.succ .HEX_NUMBER,
        { l with lexeme := l.lexeme ++ ds, pos := l.pos + 2 + ds.length }) := by
  unfold numberScan
  rw [acceptL_yes l '0' ('x' :: (ds ++ rest)) he (by omega) hd]
  simp only [Bind.bind, Except.bind, reduceIte]
  rw [peekE_cons _ 'x' (ds ++ rest) (by simpa using drop_succ_of_drop_cons l '0' _ hd)]
  simp only [Bind.bind, Except.bind]
  rw [if_neg (show ¬(('x' : Char) = 'b') by decide)]
  rw [if_neg (show ¬(('x' : Char) = 'o') by decide)]
  rw [if_pos trivial]
  simp only [numberBase, advanceL]
  have hd2 : l.input.drop (l.pos + 1 + 1) = ds ++ rest := by
    have h1 := drop_succ_of_drop_cons l '0' _ hd
    exact drop_succ_of_drop_cons { l with pos := l.pos + 1 } 'x' _ (by simpa using h1)
  have hstop : ∀ c t, rest = c :: t → isXDigitC c = false := by
    rcases hbound with hb | ⟨c', t', hb, hsp⟩
    · simp [hb]
    · subst hb
      intro c2 t2 heq
      injection heq with e1 e2
      subst e1
      exact (boundary_class c' hsp).2.1
  cases ds with
  | nil => exact absurd rfl hne
  | cons dh dt =>
    rw [peekE_cons _ dh (dt ++ rest) (by simpa using hd2)]
    simp only [Bind.bind, Except.bind]
    rw [if_pos (by simp [hall dh (by simp)])]
    rw [List.dropLast_concat]
    rw [numberTail_ok fuel isXDigitC .HEX_NUMBER _ (dh :: dt) rest (by simp [he])
      (by simpa using hd2) (by simp; simp at hcap; omega) hall hstop
      (by decide)
      (by simp; have := drop_cons_lt l.input (l.pos + 1 + 1) dh (dt ++ rest)
            (by simpa using hd2)
          omega)
      hbound (by simpa using hfuel)]

/-- A successful scan of a decimal literal records the entire digit run,
including any leading zero, as the lexeme. -/
theorem numberScan_dec_lexeme (fuel : Nat) (l : Lexer) (ds rest : List Char)
    (he : l.error = false)
    (hcap : l.lexeme.length + ds.length + 1 ≤ l.lexemeMax)
    (hd : l.input.drop l.pos = ds ++ rest)
    (hne : ds ≠ [])
    (hall : ∀ d ∈ ds, isDigitC d = true)
    (hbound : rest = [] ∨ ∃ c t, rest = c :: t ∧ (isSpaceC c = true ∨ isPunctC c = true))
    (hpos : l.pos ≤ l.input.length)
    (hfuel : ds.length < fuel) :
    numberScan fuel l =
      .ok (.succ .DEC_NUMBER,
        { l with lexeme := l.lexeme ++ ds, pos := l.pos + ds.length }) := by
  have hstop : ∀ c t, rest = c :: t → isDigitC c = false := by
    rcases hbound with hb | ⟨c', t', hb, hsp⟩
    · simp [hb]
    · subst hb
      intro c2 t2 heq
      injection heq with e1 e2
      subst e1
      exact (boundary_class c' hsp).1
  unfold numberScan
  cases ds with
  | nil => exact absurd rfl hne
  | cons d0 dt =>
    by_cases h0 : d0 = '0'
    · subst h0
      rw [acceptL_yes l '0' (dt ++ rest) he (by simp at hcap; omega) (by simpa using hd)]
      simp only [Bind.bind, Except.bind, reduceIte]
      have hdp : l.input.drop (l.pos + 1) = dt ++ rest :=
        drop_succ_of_drop_cons l '0' _ (by simpa using hd)
      cases dt with
      | nil =>
        simp only [List.nil_append] at hdp
        rcases hbound with hb | ⟨c', t', hb, hsp⟩
        · rw [hb] at hdp hstop
          have hlen : l.pos + 1 = l.input.length := by
            have h2 := congrArg List.length hdp
            rw [List.length_drop] at h2
            have := pos_lt_of_drop_cons l '0' _ (by simpa using hd)
            simp at h2
            omega
          rw [peekE_end _ (by simpa using hlen)]
          simp only [Bind.bind, Except.bind]
          rw [if_neg (show ¬(nulChar = 'b') by decide)]
          rw [if_neg (show ¬(nulChar = 'o') by decide)]
          rw [if_neg (show ¬(nulChar = 'x') by decide)]
          rw [numberTail_ok fuel isDigitC .DEC_NUMBER _ [] [] (by simp [he])
            (by simpa using hdp) (by simp; simp at hcap; omega) (by simp)
            (by simp) (by decide) (by simp; omega) (Or.inl rfl)
            (by simp at hfuel ⊢; omega)]
          simp
        · rw [hb] at hdp hstop
          rw [peekE_cons _ c' t' (by simpa using hdp)]
          simp only [Bind.bind, Except.bind]
          obtain ⟨-, -, hbne, hone, hxne⟩ := boundary_class c' hsp
          rw [if_neg (by simp [hbne]), if_neg (by simp [hone]), if_neg (by simp [hxne])]
          rw [numberTail_ok fuel isDigitC .DEC_NUMBER _ [] (c' :: t') (by simp [he])
            (by simpa using hdp) (by simp; simp at hcap; omega) (by simp)
            hstop (by decide)
            (by simp; have := drop_cons_lt l.input (l.pos + 1) c' t' hdp; omega)
            (Or.inr ⟨c', t', rfl, hsp⟩) (by simp at hfuel ⊢; omega)]
          simp
      | cons d1 dt' =>
        rw [peekE_cons _ d1 (dt' ++ rest) (by simpa using hdp)]
        simp only [Bind.bind, Except.bind]
        have hd1 : isDigitC d1 = true := hall d1 (by simp)
        obtain ⟨hb, ho, hx⟩ := digit_not_marker d1 hd1
        rw [if_neg (by simp [hb]), if_neg (by simp [ho]), if_neg (by simp [hx])]
        rw [numberTail_ok fuel isDigitC .DEC_NUMBER _ (d1 :: dt') rest (by simp [he])
          (by simpa using hdp) (by simp; simp at hcap; omega)
          (fun d hdm => hall d (List.mem_cons_of_mem _ hdm))
          hstop (by decide)
          (by simp; have := drop_cons_lt l.input (l.pos + 1) d1 (dt' ++ rest)
                (by simpa using hdp)
              omega)
          hbound (by simp at hfuel ⊢; omega)]
        simp [List.append_assoc, List.length_cons, Nat.add_assoc, Nat.add_comm,
          Nat.add_left_comm]
    · rw [acceptL_no l d0 '0' (dt ++ rest) (by simpa using hd) h0]
      simp only [Bind.bind, Except.bind]
      rw [if_neg (show ¬(false = true) by decide)]
      rw [numberTail_ok fuel isDigitC .DEC_NUMBER l (d0 :: dt) rest he hd
        hcap hall hstop (by decide) hpos hbound hfuel]

/-! ## The sticky error latch at the `lex` entry point -/

theorem lexF_err (fuel : Nat) (l : Lexer) (t : Token) (l' : Lexer)
    (h : l.error = true) (hm : lexF fuel l = .ok (t, l')) :
    t = .ERROR ∧ l'.error = true := by
  unfold lexF at hm
  cases hd : doLex fuel l with
  | error e => rw [hd] at hm; exact absurd hm (by simp [Bind.bind, Except.bind])
  | ok rl =>
    obtain ⟨r, l2⟩ := rl
    rw [hd] at hm
    simp only [Bind.bind, Except.bind] at hm
    obtain ⟨hr, he⟩ := doLex_err fuel l r l2 h hd
    subst hr
    simp only [failR, pure, Except.pure, Except.ok.injEq, Prod.mk.injEq] at hm
    obtain ⟨rfl, rfl⟩ := hm
    exact ⟨rfl, he⟩

/-! ## General lemmas on the parser productions -/

theorem postfixB_nonid (fuel : Nat) (recur : Recur) (p p' : Parser) (a : Ast)
    (h : recur .primary p = .ok (.ok (some a), p')) (hn : astTy a ≠ .ID) :
    postfixB fuel recur p = .ok (.ok (some a), p') := by
  simp [postfixB, h, hn, Bind.bind, Except.bind, pure, Except.pure]

theorem sequenceB_empty (fuel : Nat) (recur : Recur) (p p' : Parser) (a : Ast)
    (h : recur .statement p = .ok (.ok (some a), p')) (he : astTy a = .EMPTY) :
    sequenceB fuel recur p = .ok (.ok (some a), p') := by
  simp [sequenceB, h, he, Bind.bind, Except.bind, pure, Except.pure]

theorem seqLoop_trailing (fuel : Nat) (recur : Recur) (acc : List Ast) (cur a : Ast)
    (p p' : Parser)
    (h : recur .statement p = .ok (.ok (some a), p')) (he : astTy a = .EMPTY) :
    seqLoop (fuel + 1) recur acc cur p =
      .ok (.ok (some (.seqN (acc ++ [cur]))), pFree p' a) := by
  simp [seqLoop, h, he, Bind.bind, Except.bind, pure, Except.pure]

theorem sepCont_trailing (close : Token) (loop fin : Parser → PE) (p p1 p2 : Parser)
    (h1 : acceptT p .COMMA = .ok (true, p1)) (h2 : peekP p1 = .ok (close, p2)) :
    sepCont close loop fin p = fin p2 := by
  simp [sepCont, h1, h2, Bind.bind, Except.bind, pure, Except.pure]

theorem sepCont_nocomma (close : Token) (loop fin : Parser → PE) (p p1 : Parser)
    (h1 : acceptT p .COMMA = .ok (false, p1)) :
    sepCont close loop fin p = fin p1 := by
  simp [sepCont, h1, Bind.bind, Except.bind, pure, Except.pure]

/-! ## The claims -/

/-- C1: the claim's keyword/identifier boundary rule does not hold of the
code.  The keyword table of `symbol` scans all keywords through one shared
input cursor without rewinding it between candidates, so the non-keyword
runs `aor` and `elie` — for which the rule demands a single identifier
token — come back as the keyword tokens `or` and `else` instead: after
`and` fails on `aor`, scanning resumes mid-run at `or`, and the
prefix-flag path on `elie` keeps the shared index past `eli` so `else`
accepts on the final `e`.  The boundary cases the spec names (`if_`,
`iffy`, `if`) do behave as stated. -/
theorem claim_C1 :
    lexOnce ("aor") = some (.OR, ("aor").data) ∧
    lexOnce ("elie") = some (.ELSE, ("elie").data) ∧
    lexOnce ("if_") = some (.IDENTIFIER, ("if_").data) ∧
    lexOnce ("iffy") = some (.IDENTIFIER, ("iffy").data) ∧
    lexOnce ("if") = some (.IF, ("if").data) :=
  ⟨rfl, rfl, rfl, rfl, rfl⟩

/-- C2: parse does not reach a definite outcome on a source that ends
inside an unterminated triple-quoted string.  On the source of three
opening quotes, `abc` and two closing quotes, `multiline_string` appends
the terminator-position character and moves the cursor past the end of
the buffer; the `is_end` equality test can then never hold again and the
scan reads out of bounds, modelled as the `RunErr.oob` outcome. -/
theorem claim_C2 :
    parseFull pFuel [] unterminatedML = .error .oob := rfl

/-- C3: the free-everything-on-failure discipline does not hold of the
code.  Parsing `a.b` with the allocation oracle failing exactly at the
seventh allocation (the `ast_member` node) makes `postfix` drop its
already-built field node: the parse ends in the out-of-memory outcome
with two AST nodes allocated but only one released. -/
theorem claim_C3 :
    parseMem [true, true, true, true, true, true, false] ("a.b") =
      some (.errS ("not enough memory"), 2, 1) ∧ (2 : Nat) ≠ 1 :=
  ⟨rfl, by decide⟩

/-- C4: a postfix chain attaches only to a plain-identifier primary.
Whenever the `primary` production returns a node that is not an ID,
`postfix` returns it unchanged; concretely `[1,2,3][0]` parses as two
array-literal statements, not as an Index over an array, while `a[0]`
parses as an Index node with ref `a` and index `0`. -/
theorem claim_C4 (fuel : Nat) (recur : Recur) (p p' : Parser) (a : Ast)
    (h : recur .primary p = .ok (.ok (some a), p')) (hn : astTy a ≠ .ID) :
    postfixB fuel recur p = .ok (.ok (some a), p') ∧
    parseAst ("[1,2,3][0]") =
      some (.seqN [.arrN 3 [.num 1, .num 2, .num 3], .arrN 1 [.num 0]]) ∧
    parseAst ("a[0]") =
      some (.seqN [.indexN (some (.idN (some ("a")))) (.num 0)]) :=
  ⟨postfixB_nonid fuel recur p p' a h hn, rfl, rfl⟩

theorem claim_C4_witness :
    postfixB 9 (pRun 9) (pInit [] ("[]")) =
      .ok (.ok (some (.arrN 0 [])), resState (pRun 9 .primary (pInit [] ("[]")))) ∧
    parseAst ("[1,2,3][0]") =
      some (.seqN [.arrN 3 [.num 1, .num 2, .num 3], .arrN 1 [.num 0]]) ∧
    parseAst ("a[0]") =
      some (.seqN [.indexN (some (.idN (some ("a")))) (.num 0)]) :=
  claim_C4 9 (pRun 9) (pInit [] ("[]"))
    (resState (pRun 9 .primary (pInit [] ("[]")))) (.arrN 0 []) rfl (by decide)

/-- C5: application arguments are positional until the first keyword
argument, after which only keyword arguments are accepted: `f(a, k: v)`
parses to an Application with one positional and one keyword argument,
and `f(k: v, a)` fails with the recorded message. -/
theorem claim_C5 :
    parseAst ("f(a, k: v)") =
      some (.seqN [.appN (some (.idN (some ("f")))) [.idN (some ("a"))]
        [.kwArg (.idN (some ("k"))) (.idN (some ("v")))]]) ∧
    parseErr ("f(k: v, a)") = some ("application: expected keyword") :=
  ⟨rfl, rfl⟩

/-- C6: a base prefix with no following digit of that base fails the
numeric scan; a digit run followed by a character that is neither
end-of-input, whitespace nor punctuation fails the scan; a successful
base-prefixed scan records only the digits as the lexeme while a decimal
scan keeps every digit including a leading zero.  The general statements
hold for any surrounding tokenizer state with spare buffer capacity, and
the concrete runs pin the spec's examples. -/
theorem claim_C6 :
    (∀ (fuel : Nat) (l : Lexer) (rest : List Char),
      l.error = false → l.lexeme.length + 1 < l.lexemeMax →
      l.input.drop l.pos = '0' :: 'b' :: rest →
      (∀ c t, rest = c :: t → isBDigitC c = false) →
      numberScan fuel l =
        .ok (failR, { l with lexeme := l.lexeme ++ ['0'], pos := l.pos + 2 })) ∧
    (∀ (fuel : Nat) (l : Lexer) (rest : List Char),
      l.error = false → l.lexeme.length + 1 < l.lexemeMax →
      l.input.drop l.pos = '0' :: 'o' :: rest →
      (∀ c t, rest = c :: t → isODigitC c = false) →
      numberScan fuel l =
        .ok (failR, { l with lexeme := l.lexeme ++ ['0'], pos := l.pos + 2 })) ∧
    (∀ (fuel : Nat) (l : Lexer) (rest : List Char),
      l.error = false → l.lexeme.length + 1 < l.lexemeMax →
      l.input.drop l.pos = '0' :: 'x' :: rest →
      (∀ c t, rest = c :: t → isXDigitC c = false) →
      numberScan fuel l =
        .ok (failR, { l with lexeme := l.lexeme ++ ['0'], pos := l.pos + 2 })) ∧
    (∀ (fuel : Nat) (l : Lexer) (ds : List Char) (c : Char) (t : List Char),
      l.error = false → l.lexeme.length + ds.length + 1 ≤ l.lexemeMax →
      l.input.drop l.pos = ds ++ c :: t → ds ≠ [] →
      (∀ d ∈ ds, isDigitC d = true) →
      isDigitC c = false → isSpaceC c = false → isPunctC c = false →
      (ds = ['0'] → c ≠ 'b' ∧ c ≠ 'o' ∧ c ≠ 'x') →
      ds.length < fuel →
      numberScan fuel l =
        .ok (failR, { l with lexeme := l.lexeme ++ ds, pos := l.pos + ds.length })) ∧
    (∀ (fuel : Nat) (l : Lexer) (ds rest : List Char),
      l.error = false → l.lexeme.length + ds.length + 2 ≤ l.lexemeMax →
      l.input.drop l.pos = '0' :: 'x' :: (ds ++ rest) → ds ≠ [] →
      (∀ d ∈ ds, isXDigitC d = true) →
      (rest = [] ∨ ∃ c t, rest = c :: t ∧ (isSpaceC c = true ∨ isPunctC c = true)) →
      ds.length < fuel →
      numberScan fuel l =
        .ok (.succ .HEX_NUMBER,
          { l with lexeme := l.lexeme ++ ds, pos := l.pos + 2 + ds.length })) ∧
    (∀ (fuel : Nat) (l : Lexer) (ds rest : List Char),
      l.error = false → l.lexeme.length + ds.length + 1 ≤ l.lexemeMax →
      l.input.drop l.pos = ds ++ rest → ds ≠ [] →
      (∀ d ∈ ds, isDigitC d = true) →
      (rest = [] ∨ ∃ c t, rest = c :: t ∧ (isSpaceC c = true ∨ isPunctC c = true)) →
      l.pos ≤ l.input.length →
      ds.length < fuel →
      numberScan fuel l =
        .ok (.succ .DEC_NUMBER,
          { l with lexeme := l.lexeme ++ ds, pos := l.pos + ds.length })) ∧
    lexOnce ("0b") = some (.ERROR, ['0']) ∧
    lexOnce ("0o") = some (.ERROR, ['0']) ∧
    lexOnce ("0x") = some (.ERROR, ['0']) ∧
    lexOnce ("0_") = some (.ERROR, ['0']) ∧
    lexOnce ("0x1A") = some (.HEX_NUMBER, ['1', 'A']) ∧
    lexOnce ("007") = some (.DEC_NUMBER, ['0', '0', '7']) :=
  ⟨numberScan_bin_nodigit, numberScan_oct_nodigit, numberScan_hex_nodigit,
    numberScan_dec_fail, numberScan_hex_lexeme, numberScan_dec_lexeme,
    rfl, rfl, rfl, rfl, rfl, rfl⟩

theorem claim_C6_witness :
    numberScan 8 (lexerOf ("0b")) =
      .ok (failR, { lexerOf ("0b") with
        lexeme := (lexerOf ("0b")).lexeme ++ ['0'],
        pos := (lexerOf ("0b")).pos + 2 }) :=
  claim_C6.1 8 (lexerOf ("0b")) [] rfl (by decide) rfl (by simp)

/-- C7: a sequence degenerates to the Empty node when its first
statement is Empty, and otherwise collects statements until one parses
to Empty, discarding that trailing Empty: `a b c` is a three-statement
Sequence and the empty source is the Empty node. -/
theorem claim_C7 :
    (∀ (fuel : Nat) (recur : Recur) (p p' : Parser) (a : Ast),
      recur .statement p = .ok (.ok (some a), p') → astTy a = .EMPTY →
      sequenceB fuel recur p = .ok (.ok (some a), p')) ∧
    (∀ (fuel : Nat) (recur : Recur) (acc : List Ast) (cur a : Ast) (p p' : Parser),
      recur .statement p = .ok (.ok (some a), p') → astTy a = .EMPTY →
      seqLoop (fuel + 1) recur acc cur p =
        .ok (.ok (some (.seqN (acc ++ [cur]))), pFree p' a)) ∧
    parseAst ("a b c") =
      some (.seqN [.idN (some ("a")), .idN (some ("b")), .idN (some ("c"))]) ∧
    parseAst ("") = some .empty :=
  ⟨sequenceB_empty, seqLoop_trailing, rfl, rfl⟩

theorem claim_C7_witness :
    sequenceB 9 (pRun 9) (pInit [] ("")) =
      .ok (.ok (some .empty), resState (pRun 9 .statement (pInit [] ("")))) :=
  claim_C7.1 9 (pRun 9) (pInit [] (""))
    (resState (pRun 9 .statement (pInit [] ("")))) .empty rfl rfl

/-- C8: the out-of-memory latch is sticky.  A failed buffer growth
reports failure and sets the latch, and any `lex` call on a latched
tokenizer returns the error token and leaves the latch set, for every
input, cursor position and fuel. -/
theorem claim_C8 (g l : Lexer) (fuel : Nat) (t : Token) (l' : Lexer)
    (hge : g.error = false) (hgc : g.lexemeMax ≤ g.lexeme.length)
    (hgo : g.growOracle.headD true = false)
    (h : l.error = true) (hm : lexF fuel l = .ok (t, l')) :
    ((grow g).1 = false ∧ (grow g).2.error = true) ∧
    (t = .ERROR ∧ l'.error = true) :=
  ⟨by
    cases go : g.growOracle with
    | nil => rw [go] at hgo; exact absurd hgo (by decide)
    | cons b bs =>
      rw [go] at hgo
      simp at hgo
      subst hgo
      simp [grow, hge, hgc, go],
    lexF_err fuel l t l' h hm⟩

theorem claim_C8_witness :
    ((grow (doomedLexer ("x"))).1 = false ∧
      (grow (doomedLexer ("x"))).2.error = true) ∧
    (Token.ERROR = Token.ERROR ∧ (latchedAfter ("x") 81).error = true) :=
  claim_C8 (doomedLexer ("x")) (latchedLexer ("x")) 81 .ERROR
    (latchedAfter ("x") 81) rfl (by decide) rfl rfl rfl

/-- C9: array literals, dictionary literals and application argument
lists accept one trailing comma before the closing delimiter.  The
separated-list continuation finishes the list when a comma is directly
followed by the closing token (or when no comma follows), and the
concrete pairs with and without the trailing comma parse to identical
nodes. -/
theorem claim_C9 :
    (∀ (close : Token) (loop fin : Parser → PE) (p p1 p2 : Parser),
      acceptT p .COMMA = .ok (true, p1) → peekP p1 = .ok (close, p2) →
      sepCont close loop fin p = fin p2) ∧
    (∀ (close : Token) (loop fin : Parser → PE) (p p1 : Parser),
      acceptT p .COMMA = .ok (false, p1) →
      sepCont close loop fin p = fin p1) ∧
    parseAst ("[1, 2,]") = parseAst ("[1, 2]") ∧
    parseAst ("\x7ba: 1,\x7d") = parseAst ("\x7ba: 1\x7d") ∧
    parseAst ("f(a,)") = parseAst ("f(a)") ∧
    parseAst ("[1, 2,]") = some (.seqN [.arrN 2 [.num 1, .num 2]]) ∧
    parseAst ("\x7ba: 1,\x7d") =
      some (.seqN [.dictN [.kvN (.idN (some ("a"))) (.num 1)]]) ∧
    parseAst ("f(a,)") =
      some (.seqN [.appN (some (.idN (some ("f")))) [.idN (some ("a"))] []]) :=
  ⟨sepCont_trailing, sepCont_nocomma, rfl, rfl, rfl, rfl, rfl, rfl⟩

theorem claim_C9_witness :
    sepCont .R_BRACKET (fun q => pure (.ok none, q)) (fun q => pure (.ok none, q))
        (pInit [] (",]")) =
      pure (Res.ok none, peekState (acceptState (pInit [] (",]")) .COMMA)) :=
  claim_C9.1 .R_BRACKET (fun q => pure (.ok none, q)) (fun q => pure (.ok none, q))
    (pInit [] (",]")) (acceptState (pInit [] (",]")) .COMMA)
    (peekState (acceptState (pInit [] (",]")) .COMMA)) rfl rfl

/-- C10 (amended): when a multiplicative, equality or relational
operator token appears where an expression is expected at statement
position, the parse succeeds and the tree contains a binary node whose
left operand is the Empty node.  The additive operators of the original
claim are excluded: `+` and `-` are consumed as unary prefixes instead
(see the counterexample). -/
theorem claim_C10 :
    (["* 1", "/ 1", "% 1", "== 1", "!= 1", "< 1", "<= 1", "> 1", ">= 1",
        "in 1"].all emptyLeftOk) = true ∧
    parseAst ("* 1") =
      some (.seqN [.binary .ARITHMETIC .MUL .empty (.num 1)]) ∧
    parseAst ("== 1") =
      some (.seqN [.binary .RELATIONAL .EQ .empty (.num 1)]) :=
  ⟨rfl, rfl, rfl⟩

/-- C10, counterexample to the original claim: the additive operators do
not produce a binary node with an Empty left operand at statement
position — `+ 1` and `- 1` parse as unary prefix applications, and the
resulting trees contain no Empty-left binary node at all. -/
theorem claim_C10_counterexample :
    parseAst ("+ 1") = some (.seqN [.unary .PLUS (.num 1)]) ∧
    emptyLeftOk ("+ 1") = false ∧
    parseAst ("- 1") = some (.seqN [.unary .MINUS (.num 1)]) ∧
    emptyLeftOk ("- 1") = false :=
  ⟨rfl, rfl, rfl, rfl⟩

end MesonC
